import Mathlib

/-!
Verification of the mcp-global hybrid knowledge graph scripts.

This file gives a shallow embedding of the Python sources
`scripts/hybrid_graph.py`, `scripts/correlation_tracker.py` and
`scripts/call_graph.py` and proves the specification claims about them.

Modelling conventions:
* Python `dict` is modelled as an insertion-ordered association list
  (updating an existing key keeps its position, a new key is appended);
* Python `set` (only used for the neighbour index and caller lists) is
  modelled as an insertion-ordered duplicate-free list;
* Python `float` is modelled as `ℚ` (the constants appearing in the code,
  0.05/0.1/0.2/0.3/0.5/1.0, are exact decimals);
* ISO-8601 timestamp strings, which the code compares lexicographically,
  are modelled as `Int` seconds (the formats are identical so string
  comparison agrees with numeric comparison); `datetime.utcnow()` is an
  explicit `now : Int` argument;
* `str.lower`, `str.endswith`, `str.strip` are re-implemented at the
  character level (for ASCII data this agrees with Python).
-/

namespace MCPGlobal

/-! ### Python dictionary and set primitives -/

/-- Insertion-ordered association list modelling a Python dict. -/
abbrev Dict (β : Type) := List (String × β)

/-- Python `d[k]` lookup returning an `Option`. -/
def dget {β : Type} (d : Dict β) (k : String) : Option β :=
  (d.find? (fun p => p.1 == k)).map Prod.snd

/-- Python `k in d` membership test. -/
def dmem {β : Type} (d : Dict β) (k : String) : Bool :=
  d.any (fun p => p.1 == k)

/-- Python `d[k] = v`: update in place if the key exists (keeping its
position in iteration order), otherwise append at the end. -/
def dset {β : Type} : Dict β → String → β → Dict β
  | [], k, v => [(k, v)]
  | p :: d, k, v => if p.1 == k then (k, v) :: d else p :: dset d k v

/-- Python `d.get(k, default)`. -/
def dgetD {β : Type} (d : Dict β) (k : String) (v : β) : β :=
  (dget d k).getD v

/-- Python `s.add(x)` on a set modelled as a duplicate-free list. -/
def sadd (s : List String) (x : String) : List String :=
  if x ∈ s then s else s ++ [x]

/-! ### Stable descending sort

Python `sorted(xs, key=lambda x: x[1], reverse=True)` and
`xs.sort(key=..., reverse=True)` are stable: items with equal score keep
their relative input order. This insertion sort has exactly that
behaviour: an element is inserted after every earlier element whose score
is greater than or equal to its own. -/

/-- Insert one scored item into a descending-sorted list, after all items
with a greater-or-equal score (stability). -/
def insertDesc {α : Type} (x : α × ℚ) : List (α × ℚ) → List (α × ℚ)
  | [] => [x]
  | y :: ys => if y.2 ≤ x.2 then x :: y :: ys else y :: insertDesc x ys

/-- Stable sort by descending score. -/
def stableSortDesc {α : Type} : List (α × ℚ) → List (α × ℚ)
  | [] => []
  | x :: xs => insertDesc x (stableSortDesc xs)

/-! ### String helpers used by the scripts

`str.lower`, `str.endswith` and `str.strip` are re-implemented at the
character level so that concrete instances evaluate in the kernel; on
ASCII data (file paths, queries) these agree with Python. -/

/-- ASCII lower-casing of one character, as Python `str.lower` does on
ASCII input. -/
def pyLowerChar (c : Char) : Char :=
  if 65 ≤ c.toNat ∧ c.toNat ≤ 90 then Char.ofNat (c.toNat + 32) else c

/-- Python `s.lower()` (ASCII fragment). -/
def pyLower (s : String) : String := ⟨s.data.map pyLowerChar⟩

/-- Python `needle in hay` substring test. -/
def pyIn (needle hay : String) : Bool := decide (needle.data <:+: hay.data)

/-- Python `s.endswith(suffix)`. -/
def pyEndsWith (s suffix : String) : Bool := decide (suffix.data <:+ s.data)

/-- Whitespace characters stripped by Python `str.strip()`. -/
def isSpaceChar (c : Char) : Bool := c == ' ' || c == '\t' || c == '\n' || c == '\r'

/-- Python `s.strip()`. -/
def pyStrip (s : String) : String :=
  ⟨((s.data.dropWhile isSpaceChar).reverse.dropWhile isSpaceChar).reverse⟩

/-- Last path component, as `pathlib.Path(p).name`. -/
def baseName (p : String) : String :=
  ⟨(p.data.reverse.takeWhile (fun c => c != '/')).reverse⟩

/-! ### hybrid_graph.py: data model

Faithful to `HybridNode`, `HybridEdge` and `HybridGraph` from
`scripts/hybrid_graph.py`. Timestamp fields are `Int` (see header). -/

/-- A node in the hybrid knowledge graph (`HybridNode`). -/
structure HybridNode where
  id : String
  node_type : String
  path : String
  name : String
  semantic_embedding : List ℚ := []
  structural_score : ℚ := 0
  temporal_score : ℚ := 0
  comod_score : ℚ := 0
  last_accessed : Int := 0
  access_count : Nat := 0
  last_modified : Int := 0
deriving DecidableEq

/-- An edge in the hybrid graph (`HybridEdge`). -/
structure HybridEdge where
  source : String
  target : String
  structural_weight : ℚ := 0
  temporal_weight : ℚ := 0
  comod_weight : ℚ := 0
  semantic_weight : ℚ := 0
  relationship_types : List String := []
  last_updated : Int := 0
deriving DecidableEq

/-- `HybridEdge.get_combined_weight`. -/
def get_combined_weight (e : HybridEdge) : ℚ :=
  e.structural_weight * (3/10) + e.temporal_weight * (2/10) +
    e.comod_weight * (3/10) + e.semantic_weight * (2/10)

/-- The complete hybrid knowledge graph (`HybridGraph`). The `neighbors`
index maps an id to the set (insertion-ordered, duplicate-free list) of
its neighbour ids; `edges` is keyed by the string `"source|target"`. -/
structure HybridGraph where
  root : String
  nodes : Dict HybridNode := []
  edges : Dict HybridEdge := []
  neighbors : Dict (List String) := []
  access_history : List (String × Int) := []
  comod_matrix : Dict (Dict Nat) := []

/-- `HybridGraph.add_node`. -/
def add_node (g : HybridGraph) (node : HybridNode) : HybridGraph :=
  { g with nodes := dset g.nodes node.id node }

/-- The edge key `f"{source}|{target}"`. -/
def edgeKey (source target : String) : String := source ++ "|" ++ target

/-- `HybridGraph.add_edge`: upsert the directed edge, append the
relationship type if new, route the weight into the matching slot
(max for structural/semantic, saturating `min 1 (w + weight*0.1)` for
temporal/comod), refresh `last_updated`, and register both endpoints in
the symmetric neighbour index. The source's if/elif chain touches
exactly one weight slot per call; as the guards are mutually exclusive
string comparisons it is written here as one conditional per field. -/
def add_edge (g : HybridGraph) (source target relationship_type : String)
    (weight : ℚ) (now : Int) : HybridGraph :=
  let edge_id := edgeKey source target
  let e0 : HybridEdge := (dget g.edges edge_id).getD { source := source, target := target }
  let e3 : HybridEdge := {
    source := e0.source,
    target := e0.target,
    structural_weight :=
      if relationship_type = "calls" ∨ relationship_type = "imports" ∨
          relationship_type = "inherits" then max e0.structural_weight weight
      else e0.structural_weight,
    temporal_weight :=
      if relationship_type = "accessed_together" then
        min 1 (e0.temporal_weight + weight * (1/10))
      else e0.temporal_weight,
    comod_weight :=
      if relationship_type = "modified_together" then
        min 1 (e0.comod_weight + weight * (1/10))
      else e0.comod_weight,
    semantic_weight :=
      if relationship_type = "similar" then max e0.semantic_weight weight
      else e0.semantic_weight,
    relationship_types :=
      if relationship_type ∈ e0.relationship_types then e0.relationship_types
      else e0.relationship_types ++ [relationship_type],
    last_updated := now }
  let nb1 := dset g.neighbors source (sadd (dgetD g.neighbors source []) target)
  let nb2 := dset nb1 target (sadd (dgetD nb1 target []) source)
  { g with edges := dset g.edges edge_id e3, neighbors := nb2 }

/-- The trailing-window filter of `record_access` (line 157): ids in the
history whose timestamp is strictly after the cutoff and which differ
from the accessed id. -/
def recentWithinWindow (history : List (String × Int)) (node_id : String)
    (cutoff : Int) : List String :=
  (history.filter (fun p => decide (cutoff < p.2) && (p.1 != node_id))).map Prod.fst

/-- Python `xs[-5:]`. -/
def lastFive (l : List String) : List String := l.drop (l.length - 5)

/-- The bounded access history kept by `record_access`: the new entry is
appended and only the last 1000 entries are retained. -/
def boundedHistory (history : List (String × Int)) : List (String × Int) :=
  if history.length > 1000 then history.drop (history.length - 1000) else history

/-- Lines 143-153 of `record_access`: append to the bounded history and
update the accessed node's stats. -/
def record_access_core (g : HybridGraph) (node_id : String) (now : Int) : HybridGraph :=
  let hist := boundedHistory (g.access_history ++ [(node_id, now)])
  match dget g.nodes node_id with
  | some n =>
    let n1 := { n with last_accessed := now, access_count := n.access_count + 1 }
    { g with access_history := hist, nodes := dset g.nodes node_id n1 }
  | none => { g with access_history := hist }

/-- `HybridGraph.record_access` with `datetime.utcnow()` passed as `now`;
the 5-minute cutoff is `now - 300`: after the bookkeeping of
`record_access_core`, strengthen an `accessed_together` edge (weight 0.5)
towards each of the last 5 other ids accessed within the window. -/
def record_access (g : HybridGraph) (node_id : String) (now : Int) : HybridGraph :=
  let g2 := record_access_core g node_id now
  let recent := recentWithinWindow g2.access_history node_id (now - 300)
  (lastFive recent).foldl
    (fun g other_id => add_edge g node_id other_id "accessed_together" (1/2) now) g2

/-- Read `comod_matrix[f1][f2]` (0 when absent, as `defaultdict(int)`). -/
def comodGet (m : Dict (Dict Nat)) (f1 f2 : String) : Nat :=
  dgetD (dgetD m f1 []) f2 0

/-- Increment `comod_matrix[f1][f2]` by one. -/
def comodInc (m : Dict (Dict Nat)) (f1 f2 : String) : Dict (Dict Nat) :=
  let row := dgetD m f1 []
  dset m f1 (dset row f2 (dgetD row f2 0 + 1))

/-- `HybridGraph.record_comodification`: for every ordered pair of
positions `i < j` in the file list, increment both directions of the
matrix and create/strengthen a `modified_together` edge with weight
`min 1 (count * 0.2)`. -/
def record_comodification (g : HybridGraph) (now : Int) : List String → HybridGraph
  | [] => g
  | f1 :: rest =>
    let g1 := rest.foldl (fun g f2 =>
      let g := { g with comod_matrix := comodInc g.comod_matrix f1 f2 }
      let g := { g with comod_matrix := comodInc g.comod_matrix f2 f1 }
      let count := comodGet g.comod_matrix f1 f2
      let weight : ℚ := min 1 ((count : ℚ) * (2/10))
      add_edge g f1 f2 "modified_together" weight now) g
    record_comodification g1 now rest

/-- `HybridGraph.get_related_nodes`: empty for an unknown id, otherwise
the direct neighbours scored by the combined weight of their edge
(preferring the `query|neighbor` key, falling back to
`neighbor|query`), stably sorted by descending score and truncated. -/
def get_related_nodes (g : HybridGraph) (query_id : String) (limit : Nat) :
    List (String × ℚ) :=
  if dmem g.nodes query_id then
    let scores := (dgetD g.neighbors query_id []).foldl (fun acc neighbor_id =>
      let eid0 := edgeKey query_id neighbor_id
      let eid := if dmem g.edges eid0 then eid0 else edgeKey neighbor_id query_id
      match dget g.edges eid with
      | some e => dset acc neighbor_id (get_combined_weight e)
      | none => acc) ([] : Dict ℚ)
    (stableSortDesc scores).take limit
  else []

/-- The score `HybridGraph.search` assigns to one node. -/
def searchScore (query_lower : String) (node : HybridNode) : ℚ :=
  (if pyIn query_lower (pyLower node.name) then 1/2 else 0) +
  (if pyIn query_lower (pyLower node.path) then 3/10 else 0) +
  node.structural_score * (2/10) + node.temporal_score * (1/10) +
  node.comod_score * (1/10)

/-- `HybridGraph.search`: score every node, keep those with positive
score, stably sort by descending score, truncate. -/
def search (g : HybridGraph) (query : String) (limit : Nat) :
    List (HybridNode × ℚ) :=
  let query_lower := pyLower query
  let results := g.nodes.foldl (fun results p =>
    let score := searchScore query_lower p.2
    if 0 < score then results ++ [(p.2, score)] else results) []
  (stableSortDesc results).take limit

/-- The serialized snapshot produced by `HybridGraph.to_dict`. The node
and edge dictionaries survive `asdict`/reconstruction unchanged, the
neighbour sets are serialized as lists, and `access_history` is not part
of the snapshot. -/
structure HybridGraphDict where
  root : String
  nodes : Dict HybridNode
  edges : Dict HybridEdge
  neighbors : Dict (List String)
  comod_matrix : Dict (Dict Nat)

/-- `HybridGraph.to_dict`. -/
def to_dict (g : HybridGraph) : HybridGraphDict :=
  { root := g.root, nodes := g.nodes, edges := g.edges,
    neighbors := g.neighbors, comod_matrix := g.comod_matrix }

/-- `HybridGraph.from_dict`: rebuild every component from the snapshot;
`access_history` starts empty again. -/
def from_dict (d : HybridGraphDict) : HybridGraph :=
  { root := d.root, nodes := d.nodes, edges := d.edges,
    neighbors := d.neighbors, access_history := [], comod_matrix := d.comod_matrix }

/-! ### hybrid_graph.py: build pipeline

`build_hybrid_graph` scans the filesystem and git; here the scan results
are explicit arguments: the list of python file paths, the file-level
structural edges obtained from the call graph (source file, target file,
edge type — only pairs whose two symbols were found in the call graph),
and the parsed commit blocks of `git log --name-only` (each block is its
list of lines, the first line being the commit hash). -/

/-- Sum of one row of the co-modification matrix,
`sum(graph.comod_matrix.get(node_id, {}).values())`. -/
def comodRowTotal (g : HybridGraph) (node_id : String) : Nat :=
  ((dgetD g.comod_matrix node_id []).map Prod.snd).sum

/-- Number of neighbours of a node, `len(graph.neighbors.get(id, set()))`. -/
def neighborCount (g : HybridGraph) (node_id : String) : Nat :=
  (dgetD g.neighbors node_id []).length

/-- Step 4 of `build_hybrid_graph` (lines 356-364): recompute every
node's `structural_score` as `min 1 (0.1 * neighborCount)` and
`comod_score` as `min 1 (0.05 * comodRowTotal)`; no other node field is
written. -/
def computeNodeScores (g : HybridGraph) : HybridGraph :=
  { g with nodes := g.nodes.map (fun p =>
      let node := p.2
      let n1 := { node with
        structural_score := min 1 ((neighborCount g p.1 : ℚ) * (1/10)),
        comod_score := min 1 ((comodRowTotal g p.1 : ℚ) * (5/100)) }
      (p.1, n1)) }

/-- Steps 1-3 of `build_hybrid_graph`: add one `file` node per path, add
the cross-file structural edges with weight 1.0, and replay each commit
block with more than one line whose `.py` file list (paths joined to the
root) has more than one entry. -/
def buildRawGraph (root : String) (files : List String)
    (callEdges : List (String × String × String))
    (commitBlocks : List (List String)) (now : Int) : HybridGraph :=
  let g : HybridGraph := { root := root }
  let g := files.foldl (fun g path =>
    add_node g { id := path, node_type := "file", path := path, name := baseName path }) g
  let g := callEdges.foldl (fun g e =>
    if e.2.1 ≠ e.1 then add_edge g e.1 e.2.1 e.2.2 1 now else g) g
  let g := commitBlocks.foldl (fun g lines =>
    if lines.length > 1 then
      let files_in_commit := ((lines.drop 1).filter (fun f => pyEndsWith f ".py")).map
        (fun f => root ++ "/" ++ f)
      if files_in_commit.length > 1 then record_comodification g now files_in_commit
      else g
    else g) g
  g

/-- `build_hybrid_graph`: the raw build followed by the node-score
recomputation. -/
def build_hybrid_graph (root : String) (files : List String)
    (callEdges : List (String × String × String))
    (commitBlocks : List (List String)) (now : Int) : HybridGraph :=
  computeNodeScores (buildRawGraph root files callEdges commitBlocks now)

/-! ### correlation_tracker.py -/

/-- Correlation learning data (`CorrelationData`); only the fields the
claims touch are carried with structure, the rest are kept verbatim. -/
structure CorrelationData where
  root : String
  comod_counts : Dict (Dict Nat) := []
  access_counts : Dict (Dict Nat) := []
  test_correlations : Dict (Dict Nat) := []
  learned_patterns : List String := []
  last_updated : Int := 0
  commits_analyzed : Nat := 0

/-- The default commit window of `analyze_git_history` (`max_commits`). -/
def analyzeGitHistoryDefaultMaxCommits : Nat := 200

/-- The nested pair loop shared by `analyze_git_history` (lines 157-160):
for every ordered pair of positions `i < j` in the file list, increment
both `counts[f1][f2]` and `counts[f2][f1]`. -/
def comodPairsFold : Dict (Dict Nat) → List String → Dict (Dict Nat)
  | m, [] => m
  | m, f1 :: rest =>
    comodPairsFold (rest.foldl (fun m f2 => comodInc (comodInc m f1 f2) f2 f1) m) rest

/-- The non-blank file lines of one commit block,
`[f for f in lines[1:] if f.strip()]`. -/
def commitFiles (lines : List String) : List String :=
  (lines.drop 1).filter (fun f => pyStrip f != "")

/-- The `.py` entries of the commit's file list. -/
def commitPyFiles (lines : List String) : List String :=
  (commitFiles lines).filter (fun f => pyEndsWith f ".py")

/-- Processing of one commit block inside `analyze_git_history`
(lines 142-162): commits with fewer than two files are skipped, the
others contribute the symmetric pair counts of their `.py` files and
count as one analyzed commit. -/
def processCommit (data : CorrelationData) (lines : List String) : CorrelationData :=
  let files := commitFiles lines
  if files.length < 2 then data
  else
    let py_files := commitPyFiles lines
    { data with comod_counts := comodPairsFold data.comod_counts py_files,
                commits_analyzed := data.commits_analyzed + 1 }

/-- The commit-replay loop of `analyze_git_history` over the parsed
commit blocks. -/
def analyzeCommitBlocks (data : CorrelationData) (blocks : List (List String)) :
    CorrelationData :=
  blocks.foldl processCommit data

/-! ### call_graph.py: structural extractor

A small Python AST covering the constructs `CallGraphBuilder` handles:
imports, class and function definitions, expression statements, and the
expressions relevant to call/name resolution. Positional metadata
(`line`), decorators, argument defaults and `async def` (handled
identically to `def`) are not modelled. -/

/-- Python expressions as seen by the visitor. -/
inductive PyExpr where
  | name (id : String)
  | attr (value : PyExpr) (a : String)
  | call (func : PyExpr) (args : List PyExpr)
  | constant

/-- Python statements as seen by the visitor. An import name is a pair
of the imported module/symbol and the optional `as` alias. -/
inductive PyStmt where
  | importStmt (names : List (String × Option String))
  | importFrom (module : Option String) (names : List (String × Option String))
  | functionDef (name : String) (body : List PyStmt)
  | classDef (name : String) (bases : List PyExpr) (body : List PyStmt)
  | exprStmt (e : PyExpr)
  | passStmt

/-- A node of the call graph (`GraphNode`, without `line`). -/
structure GraphNode where
  name : String
  node_type : String
  file : String
  qualified_name : String
deriving DecidableEq

/-- An edge of the call graph (`GraphEdge`, without `line`). -/
structure GraphEdge where
  source : String
  target : String
  edge_type : String
  file : String
deriving DecidableEq

/-- The visitor state: the graph under construction
(`nodes`/`edges`/`callers`/`callees` of `CallGraph`) plus the
`CallGraphBuilder` fields. -/
structure BuilderState where
  module_name : String
  file_path : String
  nodes : Dict GraphNode := []
  edges : List GraphEdge := []
  callers : Dict (List String) := []
  callees : Dict (List String) := []
  current_class : Option String := none
  current_function : Option String := none
  imports : Dict String := []

/-- `CallGraph.add_edge`: append the edge and update the caller/callee
indexes (registering each endpoint once). -/
def cgAddEdge (st : BuilderState) (e : GraphEdge) : BuilderState :=
  { st with
    edges := st.edges ++ [e],
    callers := dset st.callers e.target (sadd (dgetD st.callers e.target []) e.source),
    callees := dset st.callees e.source (sadd (dgetD st.callees e.source []) e.target) }

/-- `CallGraphBuilder.get_current_scope`: module, then enclosing class,
then enclosing function, dot-joined. -/
def getCurrentScope (st : BuilderState) : String :=
  st.module_name ++
    (match st.current_class with | some c => "." ++ c | none => "") ++
    (match st.current_function with | some f => "." ++ f | none => "")

/-- The reversed part list built by the attribute-chain walk of
`CallGraphBuilder._get_name`: the alias-resolved root identifier (when
the chain bottoms out in a bare name) followed by the attribute names. -/
def attrRootParts (imports : Dict String) : PyExpr → List String
  | .name id => [dgetD imports id id]
  | .attr v a => attrRootParts imports v ++ [a]
  | _ => []

/-- `CallGraphBuilder._get_name`: a bare name is resolved through the
import-alias table; a dotted attribute access is resolved by walking the
chain to its root and substituting any alias for that root; anything
else resolves to `None`. -/
def getNameOf (imports : Dict String) : PyExpr → Option String
  | .name id => some (dgetD imports id id)
  | .attr v a => some (String.intercalate "." (attrRootParts imports v ++ [a]))
  | _ => none

/-- The edge-emitting head of `visit_Call`: a `calls` edge from the
current scope to the resolved callee, only when `current_function` is
set and the callee resolves. -/
def visitCallEdge (st : BuilderState) (f : PyExpr) : BuilderState :=
  match st.current_function with
  | some _ =>
    match getNameOf st.imports f with
    | some callee =>
      cgAddEdge st { source := getCurrentScope st, target := callee,
                     edge_type := "calls", file := st.file_path }
    | none => st
  | none => st

mutual

/-- The expression part of the visitor: `visit_Call` emits a `calls`
edge only when `current_function` is set, then recursion continues into
the children (`generic_visit`). -/
def visitExpr (st : BuilderState) : PyExpr → BuilderState
  | .name _ => st
  | .constant => st
  | .attr v _ => visitExpr st v
  | .call f args => visitExprList (visitExpr (visitCallEdge st f) f) args

/-- Visit a list of child expressions in order. -/
def visitExprList (st : BuilderState) : List PyExpr → BuilderState
  | [] => st
  | e :: es => visitExprList (visitExpr st e) es

end

/-- `CallGraphBuilder.visit_Import`: record each alias and emit an
`imports` edge per imported module. -/
def visitImport (st : BuilderState) (names : List (String × Option String)) :
    BuilderState :=
  names.foldl (fun st p =>
    let nm := p.2.getD p.1
    let st := { st with imports := dset st.imports nm p.1 }
    cgAddEdge st { source := st.module_name, target := p.1,
                   edge_type := "imports", file := st.file_path }) st

/-- `CallGraphBuilder.visit_ImportFrom`: when the module is present,
record each alias as `module.symbol` and emit an `imports` edge to the
module. -/
def visitImportFrom (st : BuilderState) (module : Option String)
    (names : List (String × Option String)) : BuilderState :=
  match module with
  | some m =>
    names.foldl (fun st p =>
      let nm := p.2.getD p.1
      let st := { st with imports := dset st.imports nm (m ++ "." ++ p.1) }
      cgAddEdge st { source := st.module_name, target := m,
                     edge_type := "imports", file := st.file_path }) st
  | none => st

/-- The head of `_visit_function`: add the function/method node and set
`current_function` to the definition's name (the saved `old_function` it
restores afterwards is the incoming `current_function`, which nothing in
between writes). -/
def functionPrelude (st : BuilderState) (name : String) : BuilderState :=
  let qualified :=
    match st.current_class with
    | some c => st.module_name ++ "." ++ c ++ "." ++ name
    | none => st.module_name ++ "." ++ name
  let ntype := match st.current_class with
    | some _ => "method"
    | none => "function"
  let fnode : GraphNode := ⟨name, ntype, st.file_path, qualified⟩
  { st with nodes := dset st.nodes qualified fnode, current_function := some name }

/-- One step of the `inherits` loop of `visit_ClassDef`. -/
def basesFoldStep (qualified : String) (st : BuilderState) (base : PyExpr) :
    BuilderState :=
  match getNameOf st.imports base with
  | some bn => cgAddEdge st { source := qualified, target := bn,
                              edge_type := "inherits", file := st.file_path }
  | none => st

/-- The node added for a class definition. -/
def classNode (st : BuilderState) (name : String) : GraphNode :=
  ⟨name, "class", st.file_path, st.module_name ++ "." ++ name⟩

/-- The state after `visit_ClassDef` adds the class node. -/
def classAddNode (st : BuilderState) (name : String) : BuilderState :=
  { st with nodes := dset st.nodes (st.module_name ++ "." ++ name) (classNode st name) }

/-- The head of `visit_ClassDef`: add the class node, emit an `inherits`
edge per resolvable base, set `current_class` (the saved `old_class` it
restores is the incoming `current_class`, which nothing in between
writes), and visit the base expressions (the start of `generic_visit`,
whose child order is bases before body). -/
def classPrelude (st : BuilderState) (name : String) (bases : List PyExpr) :
    BuilderState :=
  visitExprList
    { bases.foldl (basesFoldStep (st.module_name ++ "." ++ name)) (classAddNode st name) with
      current_class := some name } bases

mutual

/-- The statement part of the visitor: function/method definitions add a
node and set the current function around their body, class definitions
add a node, emit `inherits` edges and set the current class around their
bases and body, imports update the alias table. -/
def visitStmt (st : BuilderState) : PyStmt → BuilderState
  | .importStmt names => visitImport st names
  | .importFrom m names => visitImportFrom st m names
  | .functionDef name body =>
    let st3 := visitStmts (functionPrelude st name) body
    { st3 with current_function := st.current_function }
  | .classDef name bases body =>
    let st5 := visitStmts (classPrelude st name bases) body
    { st5 with current_class := st.current_class }
  | .exprStmt e => visitExpr st e
  | .passStmt => st

/-- Visit a list of statements in order. -/
def visitStmts (st : BuilderState) : List PyStmt → BuilderState
  | [] => st
  | s :: ss => visitStmts (visitStmt st s) ss

end

/-- The builder state at the start of one file of `build_call_graph`:
fresh visitor fields and the seeded module node. -/
def initialBuilderState (module_name file_path : String) : BuilderState :=
  { module_name := module_name, file_path := file_path,
    nodes := dset [] module_name ⟨baseName file_path, "module", file_path, module_name⟩ }

/-- The per-file run of `build_call_graph`: seed the module node, then
visit the parsed body. -/
def runBuilder (module_name file_path : String) (body : List PyStmt) :
    BuilderState :=
  visitStmts (initialBuilderState module_name file_path) body

/-! ### Weight-slot lemmas for add_edge -/

/-- The edge stored under `"s|t"`, if any. -/
def edgeAt (g : HybridGraph) (s t : String) : Option HybridEdge :=
  dget g.edges (edgeKey s t)

/-- The structural weight of the directed edge `s → t` (0 when the edge
does not exist, matching the fresh-edge default). -/
def structuralWeightAt (g : HybridGraph) (s t : String) : ℚ :=
  ((edgeAt g s t).map HybridEdge.structural_weight).getD 0

/-- The temporal weight of the directed edge `s → t`. -/
def temporalWeightAt (g : HybridGraph) (s t : String) : ℚ :=
  ((edgeAt g s t).map HybridEdge.temporal_weight).getD 0

/-- The semantic weight of the directed edge `s → t`. -/
def semanticWeightAt (g : HybridGraph) (s t : String) : ℚ :=
  ((edgeAt g s t).map HybridEdge.semantic_weight).getD 0

/-- Iterated `add_edge` on the same directed pair with a fixed
relationship type and weight. -/
def addEdgeIter (g : HybridGraph) (s t relationship_type : String) (w : ℚ)
    (now : Int) : Nat → HybridGraph
  | 0 => g
  | n + 1 => add_edge (addEdgeIter g s t relationship_type w now n) s t relationship_type w now

/-- One saturating temporal observation: +0.5 scaled by the 0.1
multiplier, capped at 1. -/
def accessStep (t : ℚ) : ℚ := min 1 (t + (1/2) * (1/10))

/-- A one-node, one-edge concrete graph for the round-trip witness. -/
def roundtripExampleGraph : HybridGraph :=
  { root := "r",
    nodes := [("a", { id := "a", node_type := "file", path := "/a.py", name := "a.py" })],
    edges := [("a|b", { source := "a", target := "b" })] }

/-- The raw graph of the C7 scenario: two files co-modified in six
distinct commits, no structural edges. -/
def sixCommitGraph : HybridGraph :=
  buildRawGraph "r" ["r/a.py", "r/b.py"] []
    [["h1", "a.py", "b.py"], ["h2", "a.py", "b.py"], ["h3", "a.py", "b.py"],
     ["h4", "a.py", "b.py"], ["h5", "a.py", "b.py"], ["h6", "a.py", "b.py"]] 0

/-- The node stored for `r/a.py` in the raw C7 scenario graph. -/
def sixCommitNodeA : HybridNode :=
  { id := "r/a.py", node_type := "file", path := "r/a.py", name := "a.py" }

/-! ### C1: related nodes -/

/-- The combined weight exactly as the specification words it:
`0.3*structural + 0.2*temporal + 0.3*comod + 0.2*semantic`. -/
def combinedWeightSpec (e : HybridEdge) : ℚ :=
  (3/10) * e.structural_weight + (2/10) * e.temporal_weight +
    (3/10) * e.comod_weight + (2/10) * e.semantic_weight

/-- The edge `get_related_nodes` scores a neighbour with: the
`id|neighbor` edge when present, else the `neighbor|id` edge. -/
def relatedEdge (g : HybridGraph) (id n : String) : Option HybridEdge :=
  dget g.edges (if dmem g.edges (edgeKey id n) then edgeKey id n else edgeKey n id)

/-- The score a neighbour receives: the combined weight of its edge. -/
def relatedScore (g : HybridGraph) (id n : String) : ℚ :=
  ((relatedEdge g id n).map combinedWeightSpec).getD 0

/-- The edge of the C1 witness graph. -/
def relatedExampleEdge : HybridEdge :=
  { source := "a", target := "b", structural_weight := 1, temporal_weight := 1/2 }

/-- The concrete graph of the C1 witness: one node a with neighbour b
and a single forward edge with known weights. -/
def relatedExampleGraph : HybridGraph :=
  { root := "r",
    nodes := [("a", { id := "a", node_type := "file", path := "/a.py", name := "a.py" })],
    edges := [("a|b", relatedExampleEdge)],
    neighbors := [("a", ["b"]), ("b", ["a"])] }

/-- The matching node of the C2 witness (all intrinsic scores zero). -/
def searchNodeA : HybridNode :=
  { id := "a", node_type := "file", path := "/src/auth.py", name := "auth.py" }

/-- The unmatched node of the C2 witness (all intrinsic scores zero). -/
def searchNodeB : HybridNode :=
  { id := "b", node_type := "file", path := "/lib/db.c", name := "db.c" }

/-- The concrete two-node graph of the C2 witness. -/
def searchExampleGraph : HybridGraph :=
  { root := "r", nodes := [("a", searchNodeA), ("b", searchNodeB)] }

/-! ### C9 and C10: visitor lemmas -/

/-- Whether a statement is an import statement. -/
def stmtIsImport : PyStmt → Bool
  | .importStmt _ => true
  | .importFrom _ _ => true
  | _ => false

mutual

/-- Whether a statement contains an import statement at any depth. -/
def stmtHasImport : PyStmt → Bool
  | .importStmt _ => true
  | .importFrom _ _ => true
  | .functionDef _ body => stmtsHaveImport body
  | .classDef _ _ body => stmtsHaveImport body
  | .exprStmt _ => false
  | .passStmt => false

/-- Whether a statement list contains an import statement at any depth. -/
def stmtsHaveImport : List PyStmt → Bool
  | [] => false
  | s :: ss => stmtHasImport s || stmtsHaveImport ss

end

/-- The import-alias table accumulated over a statement list, exactly as
the visitor's import handlers build it: `import x as a` binds `a ↦ x`,
`from m import x as a` binds `a ↦ m.x`. -/
def importAliasTable : Dict String → List PyStmt → Dict String
  | t, [] => t
  | t, .importStmt names :: ss =>
    importAliasTable (names.foldl (fun t p => dset t (p.2.getD p.1) p.1) t) ss
  | t, .importFrom (some m) names :: ss =>
    importAliasTable (names.foldl (fun t p => dset t (p.2.getD p.1) (m ++ "." ++ p.1)) t) ss
  | t, _ :: ss => importAliasTable t ss

/-- The dotted chain `e.a₁.a₂...` as an expression. -/
def mkAttrChain (e : PyExpr) (attrs : List String) : PyExpr :=
  attrs.foldl PyExpr.attr e

/-- Equality of the fields `cgAddEdge` never touches. -/
def sameCtx (st' st : BuilderState) : Prop :=
  st'.module_name = st.module_name ∧ st'.file_path = st.file_path ∧
  st'.current_class = st.current_class ∧ st'.current_function = st.current_function ∧
  st'.imports = st.imports

/-- Equality of the scope fields statements preserve around themselves. -/
def sameScope (st' st : BuilderState) : Prop :=
  st'.module_name = st.module_name ∧ st'.file_path = st.file_path ∧
  st'.current_class = st.current_class ∧ st'.current_function = st.current_function

/-- The two-statement module of the C9 witness: an aliased import and a
function whose body is a single bare-name call through the alias. -/
def c9Module : List PyStmt :=
  [PyStmt.importFrom (some "util") [("helper", some "f")],
   PyStmt.functionDef "g" [PyStmt.exprStmt (PyExpr.call (PyExpr.name "f") [])]]

theorem dget_nil {β : Type} (k : String) : dget ([] : Dict β) k = none := rfl

theorem dget_cons {β : Type} (k₀ k : String) (v₀ : β) (d : Dict β) :
    dget ((k₀, v₀) :: d) k = if k₀ = k then some v₀ else dget d k := by
  by_cases h : k₀ = k
  · have hb : (k₀ == k) = true := by simp [h]
    simp [dget, List.find?, hb, h]
  · have hb : (k₀ == k) = false := by simp [h]
    simp [dget, List.find?, hb, h]

theorem dmem_eq_false_iff {β : Type} (d : Dict β) (k : String) :
    dmem d k = false ↔ ∀ p ∈ d, p.1 ≠ k := by
  simp [dmem, List.any_eq_true]

theorem dget_eq_none_of_not_mem {β : Type} (d : Dict β) (k : String)
    (h : dmem d k = false) : dget d k = none := by
  induction d with
  | nil => rfl
  | cons p d ih =>
    rw [dmem_eq_false_iff] at h
    have h1 : p.1 ≠ k := h p (by simp)
    have h2 : dmem d k = false := by
      rw [dmem_eq_false_iff]; exact fun q hq => h q (by simp [hq])
    cases p with
    | mk k₀ v₀ =>
      rw [dget_cons]
      simp only [h1, if_false]
      exact ih h2

theorem dmem_iff_isSome {β : Type} (d : Dict β) (k : String) :
    dmem d k = true ↔ (dget d k).isSome := by
  induction d with
  | nil => simp [dmem, dget]
  | cons p d ih =>
    cases p with
    | mk k₀ v₀ =>
      rw [dget_cons]
      by_cases h : k₀ = k
      · simp [dmem, h]
      · simp only [h, if_false]
        rw [← ih]
        simp [dmem, h]

theorem dget_dset {β : Type} (d : Dict β) (k k' : String) (v : β) :
    dget (dset d k v) k' = if k = k' then some v else dget d k' := by
  induction d with
  | nil =>
    show dget [(k, v)] k' = _
    rw [dget_cons, dget_nil]
  | cons p d ih =>
    cases p with
    | mk k₀ v₀ =>
      by_cases h0 : k₀ = k
      · have hb : (k₀ == k) = true := by simp [h0]
        simp only [dset, hb, if_true]
        rw [dget_cons, dget_cons]
        subst h0
        by_cases h1 : k₀ = k'
        · simp [h1]
        · simp [h1]
      · have hb : (k₀ == k) = false := by simp [h0]
        simp only [dset, hb, Bool.false_eq_true, if_false]
        rw [dget_cons, dget_cons]
        by_cases h1 : k₀ = k'
        · subst h1
          have hkk : ¬ k = k₀ := fun h => h0 h.symm
          simp [hkk]
        · simp only [h1, if_false]
          exact ih

theorem dset_of_not_mem {β : Type} (d : Dict β) (k : String) (v : β)
    (h : dmem d k = false) : dset d k v = d ++ [(k, v)] := by
  induction d with
  | nil => rfl
  | cons p d ih =>
    have h1 : p.1 ≠ k := (dmem_eq_false_iff _ _).mp h p (by simp)
    have h2 : dmem d k = false := by
      rw [dmem_eq_false_iff]
      exact fun q hq => (dmem_eq_false_iff _ _).mp h q (by simp [hq])
    cases p with
    | mk k₀ v₀ =>
      simp only [dset, beq_iff_eq]
      simp only at h1
      simp [h1, ih h2]

theorem dgetD_dset {β : Type} (d : Dict β) (k k' : String) (v dv : β) :
    dgetD (dset d k v) k' dv = if k = k' then v else dgetD d k' dv := by
  unfold dgetD
  rw [dget_dset]
  by_cases h : k = k' <;> simp [h]

theorem mem_insertDesc {α : Type} (x a : α × ℚ) (l : List (α × ℚ)) :
    a ∈ insertDesc x l ↔ a = x ∨ a ∈ l := by
  induction l with
  | nil => simp [insertDesc]
  | cons y ys ih =>
    simp only [insertDesc]
    by_cases h : y.2 ≤ x.2
    · simp [h]
    · simp only [h, if_false, List.mem_cons, ih]
      tauto

theorem mem_stableSortDesc {α : Type} (a : α × ℚ) (l : List (α × ℚ)) :
    a ∈ stableSortDesc l ↔ a ∈ l := by
  induction l with
  | nil => simp [stableSortDesc]
  | cons x xs ih =>
    simp [stableSortDesc, mem_insertDesc, ih]

theorem pairwise_insertDesc {α : Type} (x : α × ℚ) (l : List (α × ℚ))
    (h : l.Pairwise (fun a b => b.2 ≤ a.2)) :
    (insertDesc x l).Pairwise (fun a b => b.2 ≤ a.2) := by
  induction l with
  | nil => simp [insertDesc]
  | cons y ys ih =>
    rcases List.pairwise_cons.mp h with ⟨hy, hys⟩
    simp only [insertDesc]
    by_cases hle : y.2 ≤ x.2
    · simp only [hle, if_true]
      refine List.pairwise_cons.mpr ⟨?_, h⟩
      intro b hb
      rcases List.mem_cons.mp hb with hb | hb
      · subst hb; exact hle
      · exact le_trans (hy b hb) hle
    · simp only [hle, if_false]
      refine List.pairwise_cons.mpr ⟨?_, ih hys⟩
      intro b hb
      rcases (mem_insertDesc x b ys).mp hb with hb | hb
      · subst hb; exact le_of_lt (lt_of_not_le hle)
      · exact hy b hb

theorem pairwise_stableSortDesc {α : Type} (l : List (α × ℚ)) :
    (stableSortDesc l).Pairwise (fun a b => b.2 ≤ a.2) := by
  induction l with
  | nil => simp [stableSortDesc]
  | cons x xs ih => exact pairwise_insertDesc x _ ih

theorem pairwise_take {α : Type} (r : α × ℚ → α × ℚ → Prop)
    (l : List (α × ℚ)) (n : Nat) (h : l.Pairwise r) :
    (l.take n).Pairwise r :=
  h.sublist (List.take_sublist n l)

theorem structuralWeightAt_add_edge_calls (g : HybridGraph) (s t : String)
    (w : ℚ) (now : Int) :
    structuralWeightAt (add_edge g s t "calls" w now) s t =
      max (structuralWeightAt g s t) w := by
  unfold structuralWeightAt edgeAt add_edge
  simp only [dget_dset, if_pos rfl]
  cases h : dget g.edges (edgeKey s t) with
  | none => simp [h]
  | some e => simp [h]

theorem semanticWeightAt_add_edge_similar (g : HybridGraph) (s t : String)
    (w : ℚ) (now : Int) :
    semanticWeightAt (add_edge g s t "similar" w now) s t =
      max (semanticWeightAt g s t) w := by
  unfold semanticWeightAt edgeAt add_edge
  simp only [dget_dset, if_pos rfl]
  cases h : dget g.edges (edgeKey s t) with
  | none => simp [h]
  | some e => simp [h]

theorem temporalWeightAt_add_edge_accessed (g : HybridGraph) (s t : String)
    (w : ℚ) (now : Int) :
    temporalWeightAt (add_edge g s t "accessed_together" w now) s t =
      min 1 (temporalWeightAt g s t + w * (1/10)) := by
  unfold temporalWeightAt edgeAt add_edge
  simp only [dget_dset, if_pos rfl]
  cases h : dget g.edges (edgeKey s t) with
  | none => simp [h]
  | some e => simp [h]

/-- C3. addEdge is idempotent on the structural weight slot: calling
addEdge(x,y,'calls',1.0) any positive number of times leaves
structuralWeight at exactly 1.0 (given the data-model invariant that the
prior weight is at most 1), never accumulated beyond it; structural and
semantic weights are always updated by max of the old weight and the new
observation, never by summing. -/
theorem addEdge_structural_idempotent :
    (∀ (g : HybridGraph) (x y : String) (w : ℚ) (now : Int),
      structuralWeightAt (add_edge g x y "calls" w now) x y =
        max (structuralWeightAt g x y) w) ∧
    (∀ (g : HybridGraph) (x y : String) (w : ℚ) (now : Int),
      semanticWeightAt (add_edge g x y "similar" w now) x y =
        max (semanticWeightAt g x y) w) ∧
    (∀ (g : HybridGraph) (x y : String) (now : Int) (n : Nat),
      structuralWeightAt g x y ≤ 1 →
      structuralWeightAt (addEdgeIter g x y "calls" 1 now (n + 1)) x y = 1) := by
  refine ⟨structuralWeightAt_add_edge_calls, semanticWeightAt_add_edge_similar, ?_⟩
  intro g x y now n hle
  induction n with
  | zero =>
    show structuralWeightAt (add_edge g x y "calls" 1 now) x y = 1
    rw [structuralWeightAt_add_edge_calls]
    exact max_eq_right hle
  | succ k ih =>
    show structuralWeightAt
      (add_edge (addEdgeIter g x y "calls" 1 now (k + 1)) x y "calls" 1 now) x y = 1
    rw [structuralWeightAt_add_edge_calls, ih]
    exact max_eq_right le_rfl

/-- C3 witness: on the empty graph (structural weight 0 ≤ 1) two
consecutive addEdge(x,y,'calls',1.0) calls leave the slot at exactly 1. -/
theorem addEdge_structural_idempotent_witness :
    structuralWeightAt ({ root := "r" } : HybridGraph) "x" "y" ≤ 1 ∧
    structuralWeightAt
      (addEdgeIter ({ root := "r" } : HybridGraph) "x" "y" "calls" 1 0 2) "x" "y" = 1 :=
  ⟨by decide, addEdge_structural_idempotent.2.2 { root := "r" } "x" "y" 0 1 (by decide)⟩

/-! ### C4: temporal saturation -/

theorem record_access_core_edges (g : HybridGraph) (node_id : String) (now : Int) :
    (record_access_core g node_id now).edges = g.edges := by
  unfold record_access_core
  cases h : dget g.nodes node_id <;> simp [h]

theorem record_access_core_history (g : HybridGraph) (node_id : String) (now : Int) :
    (record_access_core g node_id now).access_history =
      boundedHistory (g.access_history ++ [(node_id, now)]) := by
  unfold record_access_core
  cases h : dget g.nodes node_id <;> simp [h]

theorem temporalWeightAt_congr_edges (g₁ g₂ : HybridGraph) (s t : String)
    (h : g₁.edges = g₂.edges) : temporalWeightAt g₁ s t = temporalWeightAt g₂ s t := by
  unfold temporalWeightAt edgeAt
  rw [h]

theorem accessStep_iterate (n : Nat) :
    accessStep^[n] 0 = min 1 ((n : ℚ) * (1/20)) := by
  induction n with
  | zero => simp
  | succ k ih =>
    rw [Function.iterate_succ_apply', ih]
    unfold accessStep
    push_cast
    rcases le_or_lt 1 ((k : ℚ) * (1/20)) with h | h
    · rw [min_eq_left h]
      have h1 : (1 : ℚ) ≤ ((k : ℚ) + 1) * (1/20) := by nlinarith
      rw [min_eq_left h1, min_eq_left (by norm_num : (1 : ℚ) ≤ 1 + (1/2) * (1/10))]
    · rw [min_eq_right (le_of_lt h)]
      have harith : (k : ℚ) * (1/20) + (1/2) * (1/10) = ((k : ℚ) + 1) * (1/20) := by
        ring
      rw [harith]

/-- C4. Temporal saturation: each co-occurrence observation recorded by
recordAccess strengthens the edge by the saturating step
`min 1 (t + 0.5*0.1)`; starting from 0, twenty such observations reach
exactly 1.0, and no number of further observations pushes the weight
beyond 1.0. -/
theorem temporal_saturation :
    (∀ (g : HybridGraph) (x y : String) (w : ℚ) (now : Int),
      temporalWeightAt (add_edge g x y "accessed_together" w now) x y =
        min 1 (temporalWeightAt g x y + w * (1/10))) ∧
    (∀ (g : HybridGraph) (b a : String) (now : Int),
      lastFive (recentWithinWindow (boundedHistory (g.access_history ++ [(b, now)]))
          b (now - 300)) = [a] →
      temporalWeightAt (record_access g b now) b a =
        accessStep (temporalWeightAt g b a)) ∧
    (∀ n : Nat, accessStep^[n] 0 = min 1 ((n : ℚ) * (1/20))) ∧
    accessStep^[20] 0 = 1 ∧
    (∀ n : Nat, 20 ≤ n → accessStep^[n] 0 = 1) ∧
    (∀ n : Nat, accessStep^[n] 0 ≤ 1) := by
  have hsingle : ∀ (g : HybridGraph) (b a : String) (now : Int),
      lastFive (recentWithinWindow (boundedHistory (g.access_history ++ [(b, now)]))
          b (now - 300)) = [a] →
      temporalWeightAt (record_access g b now) b a =
        accessStep (temporalWeightAt g b a) := by
    intro g b a now h
    unfold record_access
    show temporalWeightAt ((lastFive (recentWithinWindow
        (record_access_core g b now).access_history b (now - 300))).foldl
      (fun g other_id => add_edge g b other_id "accessed_together" (1/2) now)
      (record_access_core g b now)) b a = _
    rw [record_access_core_history, h]
    simp only [List.foldl_cons, List.foldl_nil]
    rw [temporalWeightAt_add_edge_accessed,
      temporalWeightAt_congr_edges _ g _ _ (record_access_core_edges g b now)]
    rfl
  have h20 : ∀ n : Nat, 20 ≤ n → accessStep^[n] 0 = 1 := by
    intro n hn
    rw [accessStep_iterate]
    rw [min_eq_left]
    have : (20 : ℚ) ≤ (n : ℚ) := by exact_mod_cast hn
    nlinarith
  refine ⟨fun g x y w now => temporalWeightAt_add_edge_accessed g x y w now,
    hsingle, accessStep_iterate, h20 20 le_rfl, h20, ?_⟩
  intro n
  rw [accessStep_iterate]
  exact min_le_left _ _

/-- C4 witness: a graph whose history holds one access of a at time 0;
recording an access of b at time 10 sees exactly a in the 5-minute
window, so the edge b→a takes one saturating step. -/
theorem temporal_saturation_witness :
    lastFive (recentWithinWindow
      (boundedHistory ((({ root := "r", access_history := [("a", 0)] } : HybridGraph)).access_history
        ++ [("b", 10)])) "b" (10 - 300)) = ["a"] ∧
    temporalWeightAt
      (record_access ({ root := "r", access_history := [("a", 0)] } : HybridGraph) "b" 10)
      "b" "a" =
      accessStep (temporalWeightAt ({ root := "r", access_history := [("a", 0)] } : HybridGraph) "b" "a") :=
  ⟨by decide,
    temporal_saturation.2.1 { root := "r", access_history := [("a", 0)] } "b" "a" 10 (by decide)⟩

/-! ### C5: persistence round-trip -/

theorem from_dict_to_dict (g : HybridGraph) :
    from_dict (to_dict g) =
      { g with access_history := [] } := rfl

/-- C5. Persistence round-trip: for a graph with at least one node and
one edge, the graph reconstructed from its serialized snapshot answers
every search query and every relatedNodes query exactly as the original
graph does (the snapshot omits only the access history, which neither
query reads). -/
theorem persistence_roundtrip (g : HybridGraph) (query : String) (id : String)
    (limit : Nat) (_hn : g.nodes ≠ []) (_he : g.edges ≠ []) :
    search (from_dict (to_dict g)) query limit = search g query limit ∧
    get_related_nodes (from_dict (to_dict g)) id limit =
      get_related_nodes g id limit :=
  ⟨rfl, rfl⟩

/-- C5 witness: a one-node, one-edge graph. -/
theorem persistence_roundtrip_witness :
    roundtripExampleGraph.nodes ≠ [] ∧
    roundtripExampleGraph.edges ≠ [] ∧
    search (from_dict (to_dict roundtripExampleGraph)) "a" 10 =
      search roundtripExampleGraph "a" 10 ∧
    get_related_nodes (from_dict (to_dict roundtripExampleGraph)) "a" 10 =
      get_related_nodes roundtripExampleGraph "a" 10 :=
  ⟨by simp [roundtripExampleGraph], by simp [roundtripExampleGraph],
    (persistence_roundtrip _ "a" "a" 10 (by simp [roundtripExampleGraph])
      (by simp [roundtripExampleGraph])).1,
    (persistence_roundtrip _ "a" "a" 10 (by simp [roundtripExampleGraph])
      (by simp [roundtripExampleGraph])).2⟩

/-! ### C6 and C8: symmetric co-modification counting -/

theorem comodGet_comodInc (m : Dict (Dict Nat)) (f1 f2 x y : String) :
    comodGet (comodInc m f1 f2) x y =
      comodGet m x y + (if x = f1 ∧ y = f2 then 1 else 0) := by
  by_cases hx : x = f1
  · subst hx
    by_cases hy : y = f2
    · subst hy
      simp [comodInc, comodGet, dgetD_dset]
    · have hy2 : ¬ (f2 = y) := fun h => hy h.symm
      simp [comodInc, comodGet, dgetD_dset, hy, hy2]
  · have hx2 : ¬ (f1 = x) := fun h => hx h.symm
    simp [comodInc, comodGet, dgetD_dset, hx, hx2]

theorem comodGet_pairFoldInner (f1 : String) (rest : List String)
    (hnd : rest.Nodup) (hf : f1 ∉ rest) (m : Dict (Dict Nat)) (x y : String) :
    comodGet (rest.foldl (fun m f2 => comodInc (comodInc m f1 f2) f2 f1) m) x y =
      comodGet m x y +
        (if (x = f1 ∧ y ∈ rest) ∨ (y = f1 ∧ x ∈ rest) then 1 else 0) := by
  induction rest generalizing m with
  | nil => simp
  | cons f2 rs ih =>
    rcases List.nodup_cons.mp hnd with ⟨hf2, hndrs⟩
    have hf1f2 : f1 ≠ f2 := fun h => hf (by simp [h])
    have hf1rs : f1 ∉ rs := fun h => hf (by simp [h])
    simp only [List.foldl_cons]
    rw [ih hndrs hf1rs, comodGet_comodInc, comodGet_comodInc]
    by_cases hx1 : x = f1 <;> by_cases hy1 : y = f1 <;>
      by_cases hx2 : x = f2 <;> by_cases hy2 : y = f2 <;>
      simp_all

theorem comodGet_comodPairsFold (l : List String) (hnd : l.Nodup)
    (m : Dict (Dict Nat)) (x y : String) :
    comodGet (comodPairsFold m l) x y =
      comodGet m x y + (if x ∈ l ∧ y ∈ l ∧ x ≠ y then 1 else 0) := by
  induction l generalizing m with
  | nil => simp [comodPairsFold]
  | cons f1 rest ih =>
    rcases List.nodup_cons.mp hnd with ⟨hf1, hndr⟩
    simp only [comodPairsFold]
    rw [ih hndr, comodGet_pairFoldInner f1 rest hndr hf1]
    by_cases hx1 : x = f1 <;> by_cases hy1 : y = f1 <;>
      by_cases hxr : x ∈ rest <;> by_cases hyr : y ∈ rest <;>
      by_cases hxy : x = y <;>
      simp_all

theorem record_comod_inner (f1 : String) (now : Int) (rest : List String)
    (g : HybridGraph) :
    (rest.foldl (fun g f2 =>
      let g := { g with comod_matrix := comodInc g.comod_matrix f1 f2 }
      let g := { g with comod_matrix := comodInc g.comod_matrix f2 f1 }
      let count := comodGet g.comod_matrix f1 f2
      let weight : ℚ := min 1 ((count : ℚ) * (2/10))
      add_edge g f1 f2 "modified_together" weight now) g).comod_matrix =
    rest.foldl (fun m f2 => comodInc (comodInc m f1 f2) f2 f1) g.comod_matrix := by
  induction rest generalizing g with
  | nil => rfl
  | cons f2 rs ih =>
    simp only [List.foldl_cons]
    rw [ih]
    rfl

theorem record_comodification_matrix (g : HybridGraph) (now : Int)
    (l : List String) :
    (record_comodification g now l).comod_matrix =
      comodPairsFold g.comod_matrix l := by
  induction l generalizing g with
  | nil => rfl
  | cons f1 rest ih =>
    simp only [record_comodification, comodPairsFold]
    rw [ih, record_comod_inner]

/-- C6. recordComodification([a,b,c]) on three distinct files increments
all six ordered pairs of distinct files among a,b,c by exactly one in
the co-modification matrix, and leaves the entry of every pair not both
contained in the input list unchanged. -/
theorem record_comodification_abc (g : HybridGraph) (now : Int) (a b c : String)
    (hab : a ≠ b) (hac : a ≠ c) (hbc : b ≠ c) :
    (comodGet (record_comodification g now [a, b, c]).comod_matrix a b =
      comodGet g.comod_matrix a b + 1) ∧
    (comodGet (record_comodification g now [a, b, c]).comod_matrix b a =
      comodGet g.comod_matrix b a + 1) ∧
    (comodGet (record_comodification g now [a, b, c]).comod_matrix a c =
      comodGet g.comod_matrix a c + 1) ∧
    (comodGet (record_comodification g now [a, b, c]).comod_matrix c a =
      comodGet g.comod_matrix c a + 1) ∧
    (comodGet (record_comodification g now [a, b, c]).comod_matrix b c =
      comodGet g.comod_matrix b c + 1) ∧
    (comodGet (record_comodification g now [a, b, c]).comod_matrix c b =
      comodGet g.comod_matrix c b + 1) ∧
    (∀ x y : String, ¬(x ∈ ([a, b, c] : List String) ∧ y ∈ ([a, b, c] : List String)) →
      comodGet (record_comodification g now [a, b, c]).comod_matrix x y =
        comodGet g.comod_matrix x y) := by
  have hnd : ([a, b, c] : List String).Nodup := by simp [hab, hac, hbc]
  have key : ∀ x y : String,
      comodGet (record_comodification g now [a, b, c]).comod_matrix x y =
        comodGet g.comod_matrix x y +
          (if x ∈ ([a, b, c] : List String) ∧ y ∈ ([a, b, c] : List String) ∧ x ≠ y
            then 1 else 0) := by
    intro x y
    rw [record_comodification_matrix]
    exact comodGet_comodPairsFold [a, b, c] hnd g.comod_matrix x y
  refine ⟨?_, ?_, ?_, ?_, ?_, ?_, ?_⟩
  · rw [key a b]; simp [hab]
  · rw [key b a]; simp [Ne.symm hab]
  · rw [key a c]; simp [hac]
  · rw [key c a]; simp [Ne.symm hac]
  · rw [key b c]; simp [hbc]
  · rw [key c b]; simp [Ne.symm hbc]
  · intro x y hxy
    have hcond : ¬(x ∈ ([a, b, c] : List String) ∧ y ∈ ([a, b, c] : List String) ∧ x ≠ y) :=
      fun h => hxy ⟨h.1, h.2.1⟩
    rw [key x y, if_neg hcond, Nat.add_zero]

/-- C6 witness: three concrete distinct files on the empty graph; the
frame part is instantiated at a pair outside the list. -/
theorem record_comodification_abc_witness :
    ("a" : String) ≠ "b" ∧ ("a" : String) ≠ "c" ∧ ("b" : String) ≠ "c" ∧
    comodGet (record_comodification ({ root := "r" } : HybridGraph) 0
      ["a", "b", "c"]).comod_matrix "a" "b" =
      comodGet ({ root := "r" } : HybridGraph).comod_matrix "a" "b" + 1 ∧
    comodGet (record_comodification ({ root := "r" } : HybridGraph) 0
      ["a", "b", "c"]).comod_matrix "d" "e" =
      comodGet ({ root := "r" } : HybridGraph).comod_matrix "d" "e" := by
  have h := record_comodification_abc { root := "r" } 0 "a" "b" "c"
    (by decide) (by decide) (by decide)
  exact ⟨by decide, by decide, by decide, h.1, h.2.2.2.2.2.2 "d" "e" (by decide)⟩

theorem comodPairsFold_short (m : Dict (Dict Nat)) (l : List String)
    (h : l.length ≤ 1) : comodPairsFold m l = m := by
  cases l with
  | nil => rfl
  | cons f rest =>
    cases rest with
    | nil => rfl
    | cons f2 rs => simp at h

theorem two_le_length_of_mem_ne {x y : String} {l : List String}
    (hx : x ∈ l) (hy : y ∈ l) (hne : x ≠ y) : 2 ≤ l.length := by
  cases l with
  | nil => simp at hx
  | cons a as =>
    cases as with
    | nil =>
      simp at hx hy
      exact absurd (hx.trans hy.symm) hne
    | cons b bs => simp [Nat.succ_le_succ, Nat.le_add_left]

/-- C8. The co-modification miner (default window 200 commits) produces
symmetric pairwise counts strictly for commits touching at least two
source files: a commit with fewer than two `.py` files contributes no
pairs, and a commit whose `.py` file list is duplicate-free increments
both directions of every unordered pair of distinct `.py` files in it by
exactly one; the replay processes the commit blocks in order. -/
theorem git_history_pair_counting :
    analyzeGitHistoryDefaultMaxCommits = 200 ∧
    (∀ (d : CorrelationData) (blocks : List (List String)) (lines : List String),
      analyzeCommitBlocks d (blocks ++ [lines]) =
        processCommit (analyzeCommitBlocks d blocks) lines) ∧
    (∀ (d : CorrelationData) (lines : List String),
      (commitPyFiles lines).length < 2 →
      (processCommit d lines).comod_counts = d.comod_counts) ∧
    (∀ (d : CorrelationData) (lines : List String) (x y : String),
      (commitPyFiles lines).Nodup →
      x ∈ commitPyFiles lines → y ∈ commitPyFiles lines → x ≠ y →
      comodGet (processCommit d lines).comod_counts x y =
        comodGet d.comod_counts x y + 1 ∧
      comodGet (processCommit d lines).comod_counts y x =
        comodGet d.comod_counts y x + 1) := by
  refine ⟨rfl, ?_, ?_, ?_⟩
  · intro d blocks lines
    simp [analyzeCommitBlocks, List.foldl_append]
  · intro d lines hlt
    unfold processCommit
    by_cases hf : (commitFiles lines).length < 2
    · simp [hf]
    · simp only [hf, if_false]
      exact comodPairsFold_short _ _ (Nat.lt_succ_iff.mp hlt)
  · intro d lines x y hnd hx hy hne
    have h2 : 2 ≤ (commitPyFiles lines).length := two_le_length_of_mem_ne hx hy hne
    have hfile : 2 ≤ (commitFiles lines).length :=
      le_trans h2 (List.length_filter_le _ _)
    have hnlt : ¬ (commitFiles lines).length < 2 := not_lt.mpr hfile
    unfold processCommit
    simp only [hnlt, if_false]
    constructor
    · rw [comodGet_comodPairsFold _ hnd]
      simp [hx, hy, hne]
    · rw [comodGet_comodPairsFold _ hnd]
      simp [hx, hy, Ne.symm hne]

/-- C8 witness: the commit block with files a.py and b.py increments both
directions; a block with a single source file leaves the counts
unchanged. -/
theorem git_history_pair_counting_witness :
    (commitPyFiles ["h", "a.py", "b.txt"]).length < 2 ∧
    (processCommit ({ root := "r" } : CorrelationData)
      ["h", "a.py", "b.txt"]).comod_counts =
      ({ root := "r" } : CorrelationData).comod_counts ∧
    (commitPyFiles ["h", "a.py", "b.py"]).Nodup ∧
    comodGet (processCommit ({ root := "r" } : CorrelationData)
      ["h", "a.py", "b.py"]).comod_counts "a.py" "b.py" =
      comodGet ({ root := "r" } : CorrelationData).comod_counts "a.py" "b.py" + 1 ∧
    comodGet (processCommit ({ root := "r" } : CorrelationData)
      ["h", "a.py", "b.py"]).comod_counts "b.py" "a.py" =
      comodGet ({ root := "r" } : CorrelationData).comod_counts "b.py" "a.py" + 1 := by
  have hmain := git_history_pair_counting.2.2.2 { root := "r" } ["h", "a.py", "b.py"]
    "a.py" "b.py" (by decide) (by decide) (by decide) (by decide)
  exact ⟨by decide,
    git_history_pair_counting.2.2.1 { root := "r" } ["h", "a.py", "b.txt"] (by decide),
    by decide, hmain.1, hmain.2⟩

/-! ### C7: node scores after build -/

theorem dget_map_keyed {β : Type} (d : Dict β) (f : String → β → β) (k : String) :
    dget (d.map (fun p => (p.1, f p.1 p.2))) k = (dget d k).map (f k) := by
  induction d with
  | nil => rfl
  | cons p d ih =>
    cases p with
    | mk k₀ v₀ =>
      simp only [List.map_cons]
      rw [dget_cons, dget_cons]
      by_cases h : k₀ = k
      · subst h; simp
      · simp only [h, if_false]
        exact ih

/-- C7. After one build every node's structuralScore is
`min 1 (0.1 * neighborCount)` and its comodScore is
`min 1 (0.05 * comodRowTotal)`, while its temporalScore (and every other
field) is exactly what it was before the recomputation step — the score
loop writes only those two fields, and the build is that loop applied to
the raw graph. -/
theorem build_node_scores :
    (∀ (root : String) (files : List String)
        (callEdges : List (String × String × String))
        (commitBlocks : List (List String)) (now : Int),
      build_hybrid_graph root files callEdges commitBlocks now =
        computeNodeScores (buildRawGraph root files callEdges commitBlocks now)) ∧
    (∀ (g : HybridGraph) (id : String) (node : HybridNode),
      dget g.nodes id = some node →
      dget (computeNodeScores g).nodes id = some
        { node with
          structural_score := min 1 ((neighborCount g id : ℚ) * (1/10)),
          comod_score := min 1 ((comodRowTotal g id : ℚ) * (5/100)) }) ∧
    (∀ (g : HybridGraph) (id : String),
      (dget (computeNodeScores g).nodes id).map HybridNode.temporal_score =
        (dget g.nodes id).map HybridNode.temporal_score) := by
  have hmap : ∀ (g : HybridGraph) (id : String),
      dget (computeNodeScores g).nodes id =
        (dget g.nodes id).map (fun node =>
          { node with
            structural_score := min 1 ((neighborCount g id : ℚ) * (1/10)),
            comod_score := min 1 ((comodRowTotal g id : ℚ) * (5/100)) }) := by
    intro g id
    unfold computeNodeScores
    exact dget_map_keyed g.nodes
      (fun k node =>
        { node with
          structural_score := min 1 ((neighborCount g k : ℚ) * (1/10)),
          comod_score := min 1 ((comodRowTotal g k : ℚ) * (5/100)) }) id
  refine ⟨fun _ _ _ _ _ => rfl, ?_, ?_⟩
  · intro g id node h
    rw [hmap, h]
    rfl
  · intro g id
    rw [hmap]
    cases dget g.nodes id <;> rfl

/-- C7 witness: in the six-commit scenario the comod row total of a.py
is 6, its neighbour count is 1, and after the score recomputation its
comodScore is `min 1 (6*0.05) = 0.3`, its structuralScore
`min 1 (1*0.1) = 0.1`, and its temporalScore is unchanged (0). -/
theorem build_node_scores_witness :
    dget sixCommitGraph.nodes "r/a.py" = some sixCommitNodeA ∧
    comodRowTotal sixCommitGraph "r/a.py" = 6 ∧
    neighborCount sixCommitGraph "r/a.py" = 1 ∧
    dget (computeNodeScores sixCommitGraph).nodes "r/a.py" = some
      { sixCommitNodeA with structural_score := 1/10, comod_score := 3/10 } ∧
    (dget (computeNodeScores sixCommitGraph).nodes "r/a.py").map
      HybridNode.temporal_score = some 0 := by
  have h := build_node_scores.2.1 sixCommitGraph "r/a.py" sixCommitNodeA (by decide)
  have h6 : comodRowTotal sixCommitGraph "r/a.py" = 6 := by decide
  have h1 : neighborCount sixCommitGraph "r/a.py" = 1 := by decide
  rw [h6, h1] at h
  have hq1 : min 1 (((1 : Nat) : ℚ) * (1/10)) = 1/10 := by norm_num
  have hq6 : min 1 (((6 : Nat) : ℚ) * (5/100)) = 3/10 := by norm_num
  rw [hq1, hq6] at h
  refine ⟨by decide, h6, h1, h, ?_⟩
  rw [h]
  rfl

theorem get_combined_weight_eq_spec (e : HybridEdge) :
    get_combined_weight e = combinedWeightSpec e := by
  unfold get_combined_weight combinedWeightSpec
  ring

theorem dmem_append {β : Type} (d₁ d₂ : Dict β) (k : String) :
    dmem (d₁ ++ d₂) k = (dmem d₁ k || dmem d₂ k) := by
  simp [dmem, List.any_append]

theorem related_fold (g : HybridGraph) (id : String) (l : List String)
    (acc : Dict ℚ) (hnd : l.Nodup)
    (hacc : ∀ n ∈ l, dmem acc n = false)
    (hwf : ∀ n ∈ l,
      dmem g.edges (edgeKey id n) = true ∨ dmem g.edges (edgeKey n id) = true) :
    l.foldl (fun acc neighbor_id =>
      let eid0 := edgeKey id neighbor_id
      let eid := if dmem g.edges eid0 then eid0 else edgeKey neighbor_id id
      match dget g.edges eid with
      | some e => dset acc neighbor_id (get_combined_weight e)
      | none => acc) acc =
    acc ++ l.map (fun n => (n, relatedScore g id n)) := by
  induction l generalizing acc with
  | nil => simp
  | cons n rest ih =>
    obtain ⟨hn, hndr⟩ := List.nodup_cons.mp hnd
    simp only [List.foldl_cons]
    have hsome : (relatedEdge g id n).isSome := by
      unfold relatedEdge
      rcases hwf n (by simp) with h | h
      · rw [if_pos h]
        exact (dmem_iff_isSome _ _).mp h
      · by_cases hf : dmem g.edges (edgeKey id n)
        · rw [if_pos hf]
          exact (dmem_iff_isSome _ _).mp hf
        · rw [if_neg (by simp [hf])]
          exact (dmem_iff_isSome _ _).mp h
    obtain ⟨e, he⟩ := Option.isSome_iff_exists.mp hsome
    have hstep : (match dget g.edges (if dmem g.edges (edgeKey id n) then
          edgeKey id n else edgeKey n id) with
        | some e => dset acc n (get_combined_weight e)
        | none => acc) = acc ++ [(n, relatedScore g id n)] := by
      have he2 : dget g.edges (if dmem g.edges (edgeKey id n) then
          edgeKey id n else edgeKey n id) = some e := he
      rw [he2]
      have hscore : relatedScore g id n = get_combined_weight e := by
        unfold relatedScore
        rw [he, get_combined_weight_eq_spec]
        rfl
      rw [hscore]
      exact dset_of_not_mem _ _ _ (hacc n (by simp))
    rw [hstep, ih (acc ++ [(n, relatedScore g id n)]) hndr ?_ ?_]
    · simp
    · intro m hm
      rw [dmem_append]
      have h1 : dmem acc m = false := hacc m (by simp [hm])
      have h2 : n ≠ m := fun h => hn (h ▸ hm)
      have h3 : dmem [(n, relatedScore g id n)] m = false := by
        simp [dmem, h2]
      rw [h1, h3]
      rfl
    · intro m hm
      exact hwf m (by simp [hm])

/-- C1. relatedNodes(id, limit): an unknown id gives the empty list (no
error); a known id gives its neighbours, each scored by the combined
weight `0.3*structural + 0.2*temporal + 0.3*comod + 0.2*semantic` of its
edge, stably sorted in descending score order (ties keep neighbour
order) and truncated to `limit`; the result's scores are always
descending. The equation form needs the graph well-formedness that every
indexed neighbour has an edge in at least one direction and the
neighbour set holds no duplicates — both invariants of add_edge, the
only writer of the index. -/
theorem related_nodes_spec (g : HybridGraph) (id : String) (limit : Nat) :
    (dmem g.nodes id = false → get_related_nodes g id limit = []) ∧
    (dmem g.nodes id = true →
      (dgetD g.neighbors id []).Nodup →
      (∀ n ∈ dgetD g.neighbors id [],
        dmem g.edges (edgeKey id n) = true ∨ dmem g.edges (edgeKey n id) = true) →
      get_related_nodes g id limit =
        (stableSortDesc ((dgetD g.neighbors id []).map
          (fun n => (n, relatedScore g id n)))).take limit) ∧
    (get_related_nodes g id limit).Pairwise (fun x y => y.2 ≤ x.2) := by
  refine ⟨?_, ?_, ?_⟩
  · intro h
    unfold get_related_nodes
    simp [h]
  · intro h hnd hwf
    unfold get_related_nodes
    rw [if_pos h]
    rw [related_fold g id (dgetD g.neighbors id []) [] hnd (by intro n _; rfl) hwf]
    rfl
  · unfold get_related_nodes
    by_cases h : dmem g.nodes id
    · rw [if_pos h]
      exact pairwise_take _ _ _ (pairwise_stableSortDesc _)
    · rw [if_neg h]
      exact List.Pairwise.nil

/-- C1 witness: the unknown id z yields the empty list, and for the
known id a the equation and hypotheses hold on a concrete graph. -/
theorem related_nodes_spec_witness :
    dmem relatedExampleGraph.nodes "z" = false ∧
    get_related_nodes relatedExampleGraph "z" 5 = [] ∧
    dmem relatedExampleGraph.nodes "a" = true ∧
    (dgetD relatedExampleGraph.neighbors "a" []).Nodup ∧
    get_related_nodes relatedExampleGraph "a" 5 =
      (stableSortDesc ((dgetD relatedExampleGraph.neighbors "a" []).map
        (fun n => (n, relatedScore relatedExampleGraph "a" n)))).take 5 :=
  ⟨by decide,
    (related_nodes_spec relatedExampleGraph "z" 5).1 (by decide),
    by decide,
    by decide,
    (related_nodes_spec relatedExampleGraph "a" 5).2.1 (by decide) (by decide)
      (by decide)⟩

/-! ### C2: search -/

theorem search_fold (q : String) (l : Dict HybridNode)
    (acc : List (HybridNode × ℚ)) :
    l.foldl (fun results p =>
      let score := searchScore q p.2
      if 0 < score then results ++ [(p.2, score)] else results) acc =
    acc ++ (l.filter (fun p => decide (0 < searchScore q p.2))).map
      (fun p => (p.2, searchScore q p.2)) := by
  induction l generalizing acc with
  | nil => simp
  | cons p rest ih =>
    simp only [List.foldl_cons, List.filter_cons]
    by_cases h : 0 < searchScore q p.2
    · rw [if_pos h, ih]
      have hd : decide (0 < searchScore q p.2) = true := decide_eq_true h
      rw [hd]
      simp
    · rw [if_neg h, ih]
      have hd : decide (0 < searchScore q p.2) = false := decide_eq_false h
      rw [hd]
      simp

theorem searchScore_nonneg (q : String) (node : HybridNode)
    (hs : 0 ≤ node.structural_score) (ht : 0 ≤ node.temporal_score)
    (hc : 0 ≤ node.comod_score) : 0 ≤ searchScore q node := by
  unfold searchScore
  have h1 : (0:ℚ) ≤ (if pyIn q (pyLower node.name) then (1:ℚ)/2 else 0) := by
    split <;> norm_num
  have h2 : (0:ℚ) ≤ (if pyIn q (pyLower node.path) then (3:ℚ)/10 else 0) := by
    split <;> norm_num
  have h3 : (0:ℚ) ≤ node.structural_score * (2/10) := by
    apply mul_nonneg hs; norm_num
  have h4 : (0:ℚ) ≤ node.temporal_score * (1/10) := by
    apply mul_nonneg ht; norm_num
  have h5 : (0:ℚ) ≤ node.comod_score * (1/10) := by
    apply mul_nonneg hc; norm_num
  linarith

/-- C2. search(query, limit): every node is scored
`(0.5 if the query is a case-insensitive substring of its name) +
(0.3 if of its path) + 0.2*structural + 0.1*temporal + 0.1*comod`;
under the data-model invariant that intrinsic scores are nonnegative,
exactly the nodes of score 0 are excluded, the rest are returned stably
sorted by descending score and truncated; in particular a node with all
intrinsic scores 0 whose name matches is returned with score
`0.5 + (0.3 on an additional path match)`, while nodes matching nothing
score 0 and are excluded. -/
theorem search_spec (g : HybridGraph) (query : String) (limit : Nat)
    (hpos : ∀ p ∈ g.nodes, 0 ≤ p.2.structural_score ∧
      0 ≤ p.2.temporal_score ∧ 0 ≤ p.2.comod_score) :
    search g query limit =
      (stableSortDesc ((g.nodes.filter
        (fun p => decide (searchScore (pyLower query) p.2 ≠ 0))).map
        (fun p => (p.2, searchScore (pyLower query) p.2)))).take limit ∧
    (search g query limit).Pairwise (fun x y => y.2 ≤ x.2) ∧
    (∀ x ∈ search g query limit, x.2 ≠ 0) ∧
    (∀ p ∈ g.nodes, p.2.structural_score = 0 → p.2.temporal_score = 0 →
      p.2.comod_score = 0 → pyIn (pyLower query) (pyLower p.2.name) = true →
      searchScore (pyLower query) p.2 =
        1/2 + (if pyIn (pyLower query) (pyLower p.2.path) then (3:ℚ)/10 else 0) ∧
      (p.2, searchScore (pyLower query) p.2) ∈
        stableSortDesc ((g.nodes.filter
          (fun p => decide (searchScore (pyLower query) p.2 ≠ 0))).map
          (fun p => (p.2, searchScore (pyLower query) p.2)))) ∧
    (∀ p ∈ g.nodes, pyIn (pyLower query) (pyLower p.2.name) = false →
      pyIn (pyLower query) (pyLower p.2.path) = false →
      p.2.structural_score = 0 → p.2.temporal_score = 0 → p.2.comod_score = 0 →
      searchScore (pyLower query) p.2 = 0) := by
  have hfilter : g.nodes.filter (fun p => decide (0 < searchScore (pyLower query) p.2)) =
      g.nodes.filter (fun p => decide (searchScore (pyLower query) p.2 ≠ 0)) := by
    apply List.filter_congr
    intro p hp
    obtain ⟨hs, ht, hc⟩ := hpos p hp
    have hnn := searchScore_nonneg (pyLower query) p.2 hs ht hc
    by_cases h : searchScore (pyLower query) p.2 = 0
    · simp [h]
    · have : 0 < searchScore (pyLower query) p.2 := lt_of_le_of_ne hnn (Ne.symm h)
      simp [h, this]
  have hmain : search g query limit =
      (stableSortDesc ((g.nodes.filter
        (fun p => decide (searchScore (pyLower query) p.2 ≠ 0))).map
        (fun p => (p.2, searchScore (pyLower query) p.2)))).take limit := by
    show (stableSortDesc (g.nodes.foldl (fun results p =>
        let score := searchScore (pyLower query) p.2
        if 0 < score then results ++ [(p.2, score)] else results) [])).take limit = _
    rw [search_fold (pyLower query) g.nodes [], List.nil_append, hfilter]
  refine ⟨hmain, ?_, ?_, ?_, ?_⟩
  · rw [hmain]
    exact pairwise_take _ _ _ (pairwise_stableSortDesc _)
  · intro x hx
    rw [hmain] at hx
    have hx2 := List.mem_of_mem_take hx
    rw [mem_stableSortDesc] at hx2
    obtain ⟨p, hp, hpx⟩ := List.mem_map.mp hx2
    obtain ⟨hpl, hpd⟩ := List.mem_filter.mp hp
    have : searchScore (pyLower query) p.2 ≠ 0 := of_decide_eq_true hpd
    rw [← hpx]
    exact this
  · intro p hp hs ht hc hname
    have hscore : searchScore (pyLower query) p.2 =
        1/2 + (if pyIn (pyLower query) (pyLower p.2.path) then (3:ℚ)/10 else 0) := by
      unfold searchScore
      rw [hs, ht, hc, if_pos hname]
      ring
    refine ⟨hscore, ?_⟩
    rw [mem_stableSortDesc]
    apply List.mem_map.mpr
    refine ⟨p, List.mem_filter.mpr ⟨hp, ?_⟩, rfl⟩
    have hite : (0:ℚ) ≤ (if pyIn (pyLower query) (pyLower p.2.path) then (3:ℚ)/10 else 0) := by
      split <;> norm_num
    have : searchScore (pyLower query) p.2 ≠ 0 := by
      rw [hscore]
      intro habs
      nlinarith
    simp [this]
  · intro p _hp hname hpath hs ht hc
    unfold searchScore
    rw [hs, ht, hc, hname, hpath]
    norm_num

/-- C2 witness: on the concrete graph, searching auth satisfies the
equation, the matching zero-intrinsic node scores 0.5 + 0.3 (name and
path both match) and is in the pre-truncation ranking, and the unmatched
node scores exactly 0. -/
theorem search_spec_witness :
    (∀ p ∈ searchExampleGraph.nodes, 0 ≤ p.2.structural_score ∧
      0 ≤ p.2.temporal_score ∧ 0 ≤ p.2.comod_score) ∧
    search searchExampleGraph "auth" 10 =
      (stableSortDesc ((searchExampleGraph.nodes.filter
        (fun p => decide (searchScore (pyLower "auth") p.2 ≠ 0))).map
        (fun p => (p.2, searchScore (pyLower "auth") p.2)))).take 10 ∧
    searchScore (pyLower "auth") searchNodeA = 1/2 + (3:ℚ)/10 ∧
    (searchNodeA, searchScore (pyLower "auth") searchNodeA) ∈
      stableSortDesc ((searchExampleGraph.nodes.filter
        (fun p => decide (searchScore (pyLower "auth") p.2 ≠ 0))).map
        (fun p => (p.2, searchScore (pyLower "auth") p.2))) ∧
    searchScore (pyLower "auth") searchNodeB = 0 := by
  have hpos : ∀ p ∈ searchExampleGraph.nodes, 0 ≤ p.2.structural_score ∧
      0 ≤ p.2.temporal_score ∧ 0 ≤ p.2.comod_score := by decide
  have h := search_spec searchExampleGraph "auth" 10 hpos
  have hmemA : ("a", searchNodeA) ∈ searchExampleGraph.nodes := by decide
  have hA := h.2.2.2.1 ("a", searchNodeA) hmemA rfl rfl rfl (by decide)
  have hApath : pyIn (pyLower "auth") (pyLower searchNodeA.path) = true := by decide
  have hA1 : searchScore (pyLower "auth") searchNodeA = 1/2 + (3:ℚ)/10 := by
    rw [hA.1, if_pos hApath]
  have hmemB : ("b", searchNodeB) ∈ searchExampleGraph.nodes := by decide
  have hB := h.2.2.2.2 ("b", searchNodeB) hmemB (by decide) (by decide) rfl rfl rfl
  exact ⟨hpos, h.1, hA1, hA.2, hB⟩

theorem sameCtx_refl (st : BuilderState) : sameCtx st st :=
  ⟨rfl, rfl, rfl, rfl, rfl⟩

theorem sameCtx_trans {a b c : BuilderState} (h₁ : sameCtx a b) (h₂ : sameCtx b c) :
    sameCtx a c :=
  ⟨h₁.1.trans h₂.1, h₁.2.1.trans h₂.2.1, h₁.2.2.1.trans h₂.2.2.1,
    h₁.2.2.2.1.trans h₂.2.2.2.1, h₁.2.2.2.2.trans h₂.2.2.2.2⟩

theorem sameCtx_cgAddEdge (st : BuilderState) (e : GraphEdge) :
    sameCtx (cgAddEdge st e) st :=
  ⟨rfl, rfl, rfl, rfl, rfl⟩

theorem sameCtx_visitCallEdge (st : BuilderState) (f : PyExpr) :
    sameCtx (visitCallEdge st f) st := by
  unfold visitCallEdge
  cases st.current_function with
  | none => exact sameCtx_refl st
  | some fn =>
    cases getNameOf st.imports f with
    | none => exact sameCtx_refl st
    | some callee => exact sameCtx_cgAddEdge st _

mutual

theorem visitExpr_ctx (st : BuilderState) (e : PyExpr) :
    sameCtx (visitExpr st e) st := by
  cases e with
  | name id => exact sameCtx_refl st
  | constant => exact sameCtx_refl st
  | attr v a => exact visitExpr_ctx st v
  | call f args =>
    exact sameCtx_trans
      (sameCtx_trans (visitExprList_ctx (visitExpr (visitCallEdge st f) f) args)
        (visitExpr_ctx (visitCallEdge st f) f))
      (sameCtx_visitCallEdge st f)

theorem visitExprList_ctx (st : BuilderState) (es : List PyExpr) :
    sameCtx (visitExprList st es) st := by
  cases es with
  | nil => exact sameCtx_refl st
  | cons e es2 =>
    exact sameCtx_trans (visitExprList_ctx (visitExpr st e) es2) (visitExpr_ctx st e)

end

theorem visitCallEdge_edges_extend (st : BuilderState) (f : PyExpr) :
    st.edges <+: (visitCallEdge st f).edges := by
  unfold visitCallEdge
  cases st.current_function with
  | none => exact List.prefix_refl _
  | some fn =>
    cases getNameOf st.imports f with
    | none => exact List.prefix_refl _
    | some callee => exact List.prefix_append _ _

mutual

theorem visitExpr_edges_extend (st : BuilderState) (e : PyExpr) :
    st.edges <+: (visitExpr st e).edges := by
  cases e with
  | name id => exact List.prefix_refl _
  | constant => exact List.prefix_refl _
  | attr v a => exact visitExpr_edges_extend st v
  | call f args =>
    exact ((visitCallEdge_edges_extend st f).trans
      (visitExpr_edges_extend (visitCallEdge st f) f)).trans
      (visitExprList_edges_extend (visitExpr (visitCallEdge st f) f) args)

theorem visitExprList_edges_extend (st : BuilderState) (es : List PyExpr) :
    st.edges <+: (visitExprList st es).edges := by
  cases es with
  | nil => exact List.prefix_refl _
  | cons e es2 =>
    exact (visitExpr_edges_extend st e).trans
      (visitExprList_edges_extend (visitExpr st e) es2)

end

theorem visitCallEdge_id_none (st : BuilderState) (f : PyExpr)
    (h : st.current_function = none) : visitCallEdge st f = st := by
  unfold visitCallEdge
  rw [h]

mutual

theorem visitExpr_id_none (st : BuilderState) (e : PyExpr)
    (h : st.current_function = none) : visitExpr st e = st := by
  cases e with
  | name id => rfl
  | constant => rfl
  | attr v a => exact visitExpr_id_none st v h
  | call f args =>
    show visitExprList (visitExpr (visitCallEdge st f) f) args = st
    rw [visitCallEdge_id_none st f h, visitExpr_id_none st f h,
      visitExprList_id_none st args h]

theorem visitExprList_id_none (st : BuilderState) (es : List PyExpr)
    (h : st.current_function = none) : visitExprList st es = st := by
  cases es with
  | nil => rfl
  | cons e es2 =>
    show visitExprList (visitExpr st e) es2 = st
    rw [visitExpr_id_none st e h, visitExprList_id_none st es2 h]

end

theorem sameScope_refl (st : BuilderState) : sameScope st st := ⟨rfl, rfl, rfl, rfl⟩

theorem sameScope_trans {a b c : BuilderState} (h₁ : sameScope a b)
    (h₂ : sameScope b c) : sameScope a c :=
  ⟨h₁.1.trans h₂.1, h₁.2.1.trans h₂.2.1, h₁.2.2.1.trans h₂.2.2.1,
    h₁.2.2.2.trans h₂.2.2.2⟩

theorem sameCtx_sameScope {a b : BuilderState} (h : sameCtx a b) : sameScope a b :=
  ⟨h.1, h.2.1, h.2.2.1, h.2.2.2.1⟩

theorem visitImport_scope (st : BuilderState) (names : List (String × Option String)) :
    sameScope (visitImport st names) st := by
  induction names generalizing st with
  | nil => exact sameScope_refl st
  | cons p rest ih =>
    exact sameScope_trans (ih _) ⟨rfl, rfl, rfl, rfl⟩

theorem visitImport_imports (st : BuilderState) (names : List (String × Option String)) :
    (visitImport st names).imports =
      names.foldl (fun t p => dset t (p.2.getD p.1) p.1) st.imports := by
  induction names generalizing st with
  | nil => rfl
  | cons p rest ih => exact ih _

theorem visitImport_edges_extend (st : BuilderState)
    (names : List (String × Option String)) :
    st.edges <+: (visitImport st names).edges := by
  unfold visitImport
  induction names generalizing st with
  | nil => exact List.prefix_refl _
  | cons p rest ih =>
    rw [List.foldl_cons]
    refine List.IsPrefix.trans ?_ (ih _)
    exact List.prefix_append _ _

theorem visitImportFrom_scope (st : BuilderState) (module : Option String)
    (names : List (String × Option String)) :
    sameScope (visitImportFrom st module names) st := by
  cases module with
  | none => exact sameScope_refl st
  | some m =>
    show sameScope (names.foldl _ st) st
    induction names generalizing st with
    | nil => exact sameScope_refl st
    | cons p rest ih =>
      exact sameScope_trans (ih _) ⟨rfl, rfl, rfl, rfl⟩

theorem visitImportFrom_imports (st : BuilderState) (m : String)
    (names : List (String × Option String)) :
    (visitImportFrom st (some m) names).imports =
      names.foldl (fun t p => dset t (p.2.getD p.1) (m ++ "." ++ p.1)) st.imports := by
  show (names.foldl _ st).imports = _
  induction names generalizing st with
  | nil => rfl
  | cons p rest ih => exact ih _

theorem visitImportFrom_edges_extend (st : BuilderState) (module : Option String)
    (names : List (String × Option String)) :
    st.edges <+: (visitImportFrom st module names).edges := by
  cases module with
  | none => exact List.prefix_refl _
  | some m =>
    show st.edges <+: (names.foldl _ st).edges
    induction names generalizing st with
    | nil => exact List.prefix_refl _
    | cons p rest ih =>
      rw [List.foldl_cons]
      refine List.IsPrefix.trans ?_ (ih _)
      exact List.prefix_append _ _

theorem basesFoldStep_sameCtx (qualified : String) (st : BuilderState)
    (base : PyExpr) : sameCtx (basesFoldStep qualified st base) st := by
  unfold basesFoldStep
  cases getNameOf st.imports base with
  | none => exact sameCtx_refl st
  | some bn => exact sameCtx_cgAddEdge st _

theorem basesFoldStep_edges_extend (qualified : String) (st : BuilderState)
    (base : PyExpr) : st.edges <+: (basesFoldStep qualified st base).edges := by
  unfold basesFoldStep
  cases getNameOf st.imports base with
  | none => exact List.prefix_refl _
  | some bn => exact List.prefix_append _ _

theorem basesFold_sameCtx (st : BuilderState) (qualified : String)
    (bases : List PyExpr) :
    sameCtx (bases.foldl (basesFoldStep qualified) st) st := by
  induction bases generalizing st with
  | nil => exact sameCtx_refl st
  | cons b rest ih =>
    rw [List.foldl_cons]
    exact sameCtx_trans (ih _) (basesFoldStep_sameCtx qualified st b)

theorem basesFold_edges_extend (st : BuilderState) (qualified : String)
    (bases : List PyExpr) :
    st.edges <+: (bases.foldl (basesFoldStep qualified) st).edges := by
  induction bases generalizing st with
  | nil => exact List.prefix_refl _
  | cons b rest ih =>
    rw [List.foldl_cons]
    exact (basesFoldStep_edges_extend qualified st b).trans (ih _)

theorem classPrelude_ctx (st : BuilderState) (name : String) (bases : List PyExpr) :
    (classPrelude st name bases).module_name = st.module_name ∧
    (classPrelude st name bases).file_path = st.file_path ∧
    (classPrelude st name bases).current_function = st.current_function ∧
    (classPrelude st name bases).imports = st.imports := by
  unfold classPrelude
  have h1 := basesFold_sameCtx (classAddNode st name)
    (st.module_name ++ "." ++ name) bases
  have h2 := visitExprList_ctx
    ({ bases.foldl (basesFoldStep (st.module_name ++ "." ++ name)) (classAddNode st name) with
      current_class := some name }) bases
  exact ⟨h2.1.trans h1.1, h2.2.1.trans h1.2.1,
    h2.2.2.2.1.trans h1.2.2.2.1, h2.2.2.2.2.trans h1.2.2.2.2⟩

theorem classPrelude_edges_extend (st : BuilderState) (name : String)
    (bases : List PyExpr) :
    st.edges <+: (classPrelude st name bases).edges := by
  unfold classPrelude
  refine List.IsPrefix.trans ?_ (visitExprList_edges_extend _ bases)
  exact basesFold_edges_extend (classAddNode st name)
    (st.module_name ++ "." ++ name) bases

mutual

theorem visitStmt_scope (st : BuilderState) (s : PyStmt) :
    sameScope (visitStmt st s) st := by
  cases s with
  | importStmt names => exact visitImport_scope st names
  | importFrom m names => exact visitImportFrom_scope st m names
  | functionDef name body =>
    have h := visitStmts_scope (functionPrelude st name) body
    exact ⟨h.1, h.2.1, h.2.2.1, rfl⟩
  | classDef name bases body =>
    have h := visitStmts_scope (classPrelude st name bases) body
    have hp := classPrelude_ctx st name bases
    exact ⟨h.1.trans hp.1, h.2.1.trans hp.2.1, rfl, h.2.2.2.trans hp.2.2.1⟩
  | exprStmt e => exact sameCtx_sameScope (visitExpr_ctx st e)
  | passStmt => exact sameScope_refl st

theorem visitStmts_scope (st : BuilderState) (ss : List PyStmt) :
    sameScope (visitStmts st ss) st := by
  cases ss with
  | nil => exact sameScope_refl st
  | cons s ss2 =>
    exact sameScope_trans (visitStmts_scope (visitStmt st s) ss2) (visitStmt_scope st s)

end

mutual

theorem visitStmt_imports_noimp (st : BuilderState) (s : PyStmt)
    (h : stmtHasImport s = false) : (visitStmt st s).imports = st.imports := by
  cases s with
  | importStmt names => simp [stmtHasImport] at h
  | importFrom m names => simp [stmtHasImport] at h
  | functionDef name body =>
    have hb : stmtsHaveImport body = false := by
      simpa [stmtHasImport] using h
    show (visitStmts (functionPrelude st name) body).imports = st.imports
    rw [visitStmts_imports_noimp (functionPrelude st name) body hb]
    rfl
  | classDef name bases body =>
    have hb : stmtsHaveImport body = false := by
      simpa [stmtHasImport] using h
    show (visitStmts (classPrelude st name bases) body).imports = st.imports
    rw [visitStmts_imports_noimp (classPrelude st name bases) body hb]
    exact (classPrelude_ctx st name bases).2.2.2
  | exprStmt e => exact (visitExpr_ctx st e).2.2.2.2
  | passStmt => rfl

theorem visitStmts_imports_noimp (st : BuilderState) (ss : List PyStmt)
    (h : stmtsHaveImport ss = false) : (visitStmts st ss).imports = st.imports := by
  cases ss with
  | nil => rfl
  | cons s ss2 =>
    have hs : stmtHasImport s = false ∧ stmtsHaveImport ss2 = false := by
      constructor <;> simp_all [stmtsHaveImport]
    show (visitStmts (visitStmt st s) ss2).imports = st.imports
    rw [visitStmts_imports_noimp (visitStmt st s) ss2 hs.2,
      visitStmt_imports_noimp st s hs.1]

end

mutual

theorem visitStmt_edges_extend (st : BuilderState) (s : PyStmt) :
    st.edges <+: (visitStmt st s).edges := by
  cases s with
  | importStmt names => exact visitImport_edges_extend st names
  | importFrom m names => exact visitImportFrom_edges_extend st m names
  | functionDef name body =>
    exact visitStmts_edges_extend (functionPrelude st name) body
  | classDef name bases body =>
    exact (classPrelude_edges_extend st name bases).trans
      (visitStmts_edges_extend (classPrelude st name bases) body)
  | exprStmt e => exact visitExpr_edges_extend st e
  | passStmt => exact List.prefix_refl _

theorem visitStmts_edges_extend (st : BuilderState) (ss : List PyStmt) :
    st.edges <+: (visitStmts st ss).edges := by
  cases ss with
  | nil => exact List.prefix_refl _
  | cons s ss2 =>
    exact (visitStmt_edges_extend st s).trans
      (visitStmts_edges_extend (visitStmt st s) ss2)

end

theorem visitStmts_append (st : BuilderState) (l₁ l₂ : List PyStmt) :
    visitStmts st (l₁ ++ l₂) = visitStmts (visitStmts st l₁) l₂ := by
  induction l₁ generalizing st with
  | nil => rfl
  | cons s rest ih =>
    show visitStmts (visitStmt st s) (rest ++ l₂) = _
    exact ih (visitStmt st s)

theorem visitStmts_imports_importsOnly (st : BuilderState) (ss : List PyStmt)
    (h : ∀ s ∈ ss, stmtIsImport s = true) :
    (visitStmts st ss).imports = importAliasTable st.imports ss := by
  induction ss generalizing st with
  | nil => rfl
  | cons s ss2 ih =>
    have hs := h s (by simp)
    have hrest : ∀ s ∈ ss2, stmtIsImport s = true := fun x hx => h x (by simp [hx])
    cases s with
    | importStmt names =>
      show (visitStmts (visitImport st names) ss2).imports = _
      rw [ih _ hrest, visitImport_imports]
      rfl
    | importFrom m names =>
      cases m with
      | none =>
        show (visitStmts (visitImportFrom st none names) ss2).imports = _
        rw [ih _ hrest]
        rfl
      | some mod =>
        show (visitStmts (visitImportFrom st (some mod) names) ss2).imports = _
        rw [ih _ hrest, visitImportFrom_imports]
        rfl
    | functionDef name body => simp [stmtIsImport] at hs
    | classDef name bases body => simp [stmtIsImport] at hs
    | exprStmt e => simp [stmtIsImport] at hs
    | passStmt => simp [stmtIsImport] at hs

theorem attrRootParts_mkAttrChain (T : Dict String) (e : PyExpr)
    (attrs : List String) :
    attrRootParts T (mkAttrChain e attrs) = attrRootParts T e ++ attrs := by
  induction attrs generalizing e with
  | nil => simp [mkAttrChain]
  | cons a as ih =>
    show attrRootParts T (mkAttrChain (.attr e a) as) = _
    rw [ih (.attr e a)]
    show (attrRootParts T e ++ [a]) ++ as = attrRootParts T e ++ (a :: as)
    simp

theorem getNameOf_attr_chain (T : Dict String) (root : String)
    (attrs : List String) (a : String) :
    getNameOf T (mkAttrChain (PyExpr.name root) (attrs ++ [a])) =
      some (String.intercalate "." (dgetD T root root :: (attrs ++ [a]))) := by
  have hsplit : mkAttrChain (PyExpr.name root) (attrs ++ [a]) =
      PyExpr.attr (mkAttrChain (PyExpr.name root) attrs) a := by
    simp [mkAttrChain, List.foldl_append]
  rw [hsplit]
  show some (String.intercalate "."
    (attrRootParts T (mkAttrChain (PyExpr.name root) attrs) ++ [a])) = _
  rw [attrRootParts_mkAttrChain]
  show some (String.intercalate "." (([dgetD T root root] ++ attrs) ++ [a])) = _
  simp

theorem visitExpr_call_emits (st : BuilderState) (f : PyExpr) (args : List PyExpr)
    (callee : String) (hf : st.current_function.isSome)
    (hname : getNameOf st.imports f = some callee) :
    (⟨getCurrentScope st, callee, "calls", st.file_path⟩ : GraphEdge) ∈
      (visitExpr st (.call f args)).edges := by
  have hmem : (⟨getCurrentScope st, callee, "calls", st.file_path⟩ : GraphEdge) ∈
      (visitCallEdge st f).edges := by
    unfold visitCallEdge
    obtain ⟨fn, hfn⟩ := Option.isSome_iff_exists.mp hf
    rw [hfn, hname]
    show _ ∈ st.edges ++ [(⟨getCurrentScope st, callee, "calls", st.file_path⟩ : GraphEdge)]
    simp
  have h1 := visitExpr_edges_extend (visitCallEdge st f) f
  have h2 := visitExprList_edges_extend (visitExpr (visitCallEdge st f) f) args
  show _ ∈ (visitExprList (visitExpr (visitCallEdge st f) f) args).edges
  exact h2.subset (h1.subset hmem)

theorem getCurrentScope_eq (st : BuilderState) (g : String)
    (hc : st.current_class = none) (hf : st.current_function = some g) :
    getCurrentScope st = st.module_name ++ "." ++ g := by
  unfold getCurrentScope
  rw [hc, hf]
  show st.module_name ++ "" ++ ("." ++ g) = st.module_name ++ "." ++ g
  rw [String.append_empty, ← String.append_assoc]

/-- C9. A call expression f() inside a top-level function g of module m
makes the extractor emit a calls edge from m.g to the alias-resolved
name of f: the bare name is looked up in the import-alias table built
from the file's import statements, falling back to the name itself;
moreover a dotted attribute chain resolves to the chain joined on dots
with only its root identifier alias-substituted. The import statements
precede the function and the function body holds no imports before the
call, so the table at the call site is the one the imports built. -/
theorem call_edge_extraction :
    (∀ (m fp : String) (pre : List PyStmt) (g f : String) (args : List PyExpr)
        (body1 body2 : List PyStmt),
      (∀ s ∈ pre, stmtIsImport s = true) →
      stmtsHaveImport body1 = false →
      (⟨m ++ "." ++ g, dgetD (importAliasTable [] pre) f f, "calls", fp⟩ : GraphEdge) ∈
        (runBuilder m fp (pre ++ [PyStmt.functionDef g
          (body1 ++ PyStmt.exprStmt (PyExpr.call (PyExpr.name f) args) :: body2)])).edges) ∧
    (∀ (T : Dict String) (root : String) (attrs : List String) (a : String),
      getNameOf T (mkAttrChain (PyExpr.name root) (attrs ++ [a])) =
        some (String.intercalate "." (dgetD T root root :: (attrs ++ [a])))) := by
  refine ⟨?_, getNameOf_attr_chain⟩
  intro m fp pre g f args body1 body2 hpre hb1
  unfold runBuilder
  rw [visitStmts_append]
  set stA := visitStmts (initialBuilderState m fp) pre with hstA
  show _ ∈ (visitStmt stA (.functionDef g
    (body1 ++ PyStmt.exprStmt (PyExpr.call (PyExpr.name f) args) :: body2))).edges
  show _ ∈ (visitStmts (functionPrelude stA g)
    (body1 ++ PyStmt.exprStmt (PyExpr.call (PyExpr.name f) args) :: body2)).edges
  rw [visitStmts_append]
  set stB := visitStmts (functionPrelude stA g) body1 with hstB
  show _ ∈ (visitStmts (visitStmt stB
    (.exprStmt (PyExpr.call (PyExpr.name f) args))) body2).edges
  refine (visitStmts_edges_extend _ body2).subset ?_
  show _ ∈ (visitExpr stB (.call (.name f) args)).edges
  have hscopeA := visitStmts_scope (initialBuilderState m fp) pre
  have hscopeB := visitStmts_scope (functionPrelude stA g) body1
  have hcfB : stB.current_function = some g := by
    rw [hstB, hscopeB.2.2.2]
    rfl
  have hccB : stB.current_class = none := by
    rw [hstB, hscopeB.2.2.1]
    show stA.current_class = none
    rw [hstA, hscopeA.2.2.1]
    rfl
  have hmodB : stB.module_name = m := by
    rw [hstB, hscopeB.1]
    show stA.module_name = m
    rw [hstA, hscopeA.1]
    rfl
  have hfpB : stB.file_path = fp := by
    rw [hstB, hscopeB.2.1]
    show stA.file_path = fp
    rw [hstA, hscopeA.2.1]
    rfl
  have himpB : stB.imports = importAliasTable [] pre := by
    rw [hstB, visitStmts_imports_noimp _ body1 hb1]
    show stA.imports = _
    rw [hstA, visitStmts_imports_importsOnly _ pre hpre]
    rfl
  have hname : getNameOf stB.imports (.name f) =
      some (dgetD (importAliasTable [] pre) f f) := by
    show some (dgetD stB.imports f f) = _
    rw [himpB]
  have hemit := visitExpr_call_emits stB (.name f) args
    (dgetD (importAliasTable [] pre) f f) (by rw [hcfB]; rfl) hname
  have hscope : getCurrentScope stB = m ++ "." ++ g := by
    rw [getCurrentScope_eq stB g hccB hcfB, hmodB]
  rw [hscope, hfpB] at hemit
  exact hemit

/-- C9 witness: running the builder on the concrete module emits the
calls edge from m.g to the alias-resolved target util.helper. -/
theorem call_edge_extraction_witness :
    (∀ s ∈ [PyStmt.importFrom (some "util") [("helper", some "f")]],
      stmtIsImport s = true) ∧
    stmtsHaveImport ([] : List PyStmt) = false ∧
    dgetD (importAliasTable []
      [PyStmt.importFrom (some "util") [("helper", some "f")]]) "f" "f" = "util.helper" ∧
    (⟨"m.g", "util.helper", "calls", "m.py"⟩ : GraphEdge) ∈
      (runBuilder "m" "m.py" c9Module).edges := by
  have halias : dgetD (importAliasTable []
      [PyStmt.importFrom (some "util") [("helper", some "f")]]) "f" "f" =
      "util.helper" := by decide
  have h := call_edge_extraction.1 "m" "m.py"
    [PyStmt.importFrom (some "util") [("helper", some "f")]] "g" "f" [] [] []
    (by decide) (by simp [stmtsHaveImport])
  rw [halias] at h
  exact ⟨by decide, by simp [stmtsHaveImport], halias, h⟩

/-- C10. A call expression outside every function and method body — at
module top level or directly inside a class body — produces no edge at
all: running the builder on a module with such a call site yields exactly
the state of the module without it. -/
theorem toplevel_calls_dropped (m fp : String) (s1 s2 : List PyStmt)
    (n : String) (bases : List PyExpr) (b1 b2 : List PyStmt) (e : PyExpr) :
    runBuilder m fp (s1 ++ PyStmt.exprStmt e :: s2) = runBuilder m fp (s1 ++ s2) ∧
    runBuilder m fp (s1 ++ PyStmt.classDef n bases (b1 ++ PyStmt.exprStmt e :: b2) :: s2) =
      runBuilder m fp (s1 ++ PyStmt.classDef n bases (b1 ++ b2) :: s2) := by
  have hdrop : ∀ (st : BuilderState), st.current_function = none →
      ∀ (b1 : List PyStmt) (e : PyExpr) (b2 : List PyStmt),
      visitStmts st (b1 ++ PyStmt.exprStmt e :: b2) = visitStmts st (b1 ++ b2) := by
    intro st h b1 e b2
    rw [visitStmts_append, visitStmts_append]
    have hcf : (visitStmts st b1).current_function = none := by
      rw [(visitStmts_scope st b1).2.2.2, h]
    show visitStmts (visitStmt (visitStmts st b1) (.exprStmt e)) b2 =
      visitStmts (visitStmts st b1) b2
    have hid : visitStmt (visitStmts st b1) (.exprStmt e) = visitStmts st b1 :=
      visitExpr_id_none _ e hcf
    rw [hid]
  constructor
  · unfold runBuilder
    exact hdrop _ rfl s1 e s2
  · unfold runBuilder
    rw [visitStmts_append, visitStmts_append]
    set stA := visitStmts (initialBuilderState m fp) s1 with hstA
    have hcfA : stA.current_function = none := by
      rw [hstA, (visitStmts_scope _ s1).2.2.2]
      rfl
    show visitStmts (visitStmt stA (.classDef n bases (b1 ++ PyStmt.exprStmt e :: b2))) s2 =
      visitStmts (visitStmt stA (.classDef n bases (b1 ++ b2))) s2
    have hclass : visitStmt stA (.classDef n bases (b1 ++ PyStmt.exprStmt e :: b2)) =
        visitStmt stA (.classDef n bases (b1 ++ b2)) := by
      show ({ visitStmts (classPrelude stA n bases) (b1 ++ PyStmt.exprStmt e :: b2) with
          current_class := stA.current_class } : BuilderState) =
        { visitStmts (classPrelude stA n bases) (b1 ++ b2) with
          current_class := stA.current_class }
      have hcfP : (classPrelude stA n bases).current_function = none := by
        rw [(classPrelude_ctx stA n bases).2.2.1, hcfA]
      rw [hdrop _ hcfP b1 e b2]
    rw [hclass]

end MCPGlobal

